import Mathlib

/-!
Verification of the syncserver deployment shim (`syncserver/__init__.py`).

The file embeds the two behaviours of the repository in Lean:

* the settings defaulter `includeme`, which validates the required
  `syncserver.public_url` entry and fills in default values for the
  dependent configuration keys, and
* the per-request URL reconciler `reconcile_wsgi_environ_with_public_url`,
  which compares the configured public URL with the URL computed from the
  WSGI environ and either rejects the request, fixes the environ, or lets
  it pass.

Python dictionaries are embedded as association lists with distinct keys,
Python strings as `String`, and the `urlparse`/`urlunparse` helpers from
the Python standard library are modelled character by character.
-/

namespace Syncserver

/-- Values stored in the deployment settings mapping.  The configuration
loader hands the application strings and booleans, and the defaulter itself
stores a list of secrets under `tokenserver.secrets.secrets`. -/
inductive Value where
  | vStr : String → Value
  | vBool : Bool → Value
  | vList : List Value → Value

open Value

/-- The settings mapping: association list of keys to values, mirroring the
mutable settings dictionary of the Pyramid registry. -/
abbrev Settings := List (String × Value)

/-- Dictionary lookup, `settings.get(k)` / `settings[k]`. -/
def sget : Settings → String → Option Value
  | [], _ => none
  | kv :: t, k => if kv.1 = k then some kv.2 else sget t k

/-- Dictionary assignment `settings[k] = v`: replaces the value of an
existing key in place, otherwise appends a fresh entry. -/
def sset : Settings → String → Value → Settings
  | [], k, v => [(k, v)]
  | kv :: t, k, v => if kv.1 = k then (k, v) :: t else kv :: sset t k v

/-- Dictionary removal `settings.pop(k, None)`. -/
def spop : Settings → String → Settings
  | [], _ => []
  | kv :: t, k => if kv.1 = k then spop t k else kv :: spop t k

/-- Snapshot of the keys, `settings.keys()`. -/
def skeys (s : Settings) : List String := s.map Prod.fst

/-- Membership test `k in settings`. -/
def scontains : Settings → String → Bool
  | [], _ => false
  | kv :: t, k => if kv.1 = k then true else scontains t k

/-- Well-formedness of a settings mapping: keys are pairwise distinct, as
in a Python dictionary. -/
def SWF (s : Settings) : Prop := (skeys s).Nodup

/-- Characters dropped from the right by `"x".rstrip("/")` in Python. -/
def rstripChars (l : List Char) : List Char :=
  (l.reverse.dropWhile fun c => c = '/').reverse

/-- Python `s.rstrip("/")`: the string with all trailing slashes removed. -/
def rstripSlash (s : String) : String := ⟨rstripChars s.data⟩

/-- Boolean test that the first list is a prefix of the second. -/
def listIsPrefixC : List Char → List Char → Bool
  | [], _ => true
  | _ :: _, [] => false
  | a :: as, b :: bs => if a = b then listIsPrefixC as bs else false

/-- Python `s.startswith(p)`. -/
def strStartsWith (s p : String) : Bool := listIsPrefixC p.data s.data

/-- Python slicing `s[n:]`. -/
def strDrop (s : String) (n : Nat) : String := ⟨s.data.drop n⟩

/-- Characters allowed in a URL scheme by the Python 2 `urlparse` module:
letters, digits and the characters `+`, `-` and `.`. -/
def schemeChar (c : Char) : Bool :=
  c.isAlpha || c.isDigit || c = '+' || c = '-' || c = '.'

/-- Splits a character list at the first colon, returning the parts before
and after it, or `none` when there is no colon (`url.find(":")`). -/
def splitSchemeAux : List Char → Option (List Char × List Char)
  | [] => none
  | c :: rest =>
    if c = ':' then some ([], rest)
    else
      match splitSchemeAux rest with
      | none => none
      | some (pre, post) => some (c :: pre, post)

/-- Splits the part after `//` into the network location and the rest: the
network location extends to the first `/`, `?` or `#` (`_splitnetloc`). -/
def splitNetloc : List Char → List Char × List Char
  | [] => ([], [])
  | c :: rest =>
    if c = '/' ∨ c = '?' ∨ c = '#' then ([], c :: rest)
    else (c :: (splitNetloc rest).1, (splitNetloc rest).2)

/-- Result of `urlparse`, restricted to the components the application
reads: scheme, network location and path. -/
structure UrlParts where
  scheme : String
  netloc : String
  path : String
deriving DecidableEq, Repr

/-- Scheme recognition of the Python 2 `urlparse` module: a scheme is
split off when a colon follows a nonempty run of scheme characters and the
remainder is not just a port number (with the `http` shortcut path of the
original code); the recognised scheme is lowercased. -/
def urlparseSchemeSplit (l : List Char) : List Char × List Char :=
  match splitSchemeAux l with
  | some (pre, post) =>
    if pre = "http".data ∨
        (pre ≠ [] ∧ pre.all schemeChar ∧ (post = [] ∨ post.any fun c => !c.isDigit)) then
      (pre.map Char.toLower, post)
    else (([] : List Char), l)
  | none => (([] : List Char), l)

/-- Network-location recognition of the Python 2 `urlparse` module: a
network location is split off when the remainder begins with `//`. -/
def urlparseNetlocSplit (l : List Char) : List Char × List Char :=
  match l with
  | '/' :: '/' :: r => splitNetloc r
  | _ => (([] : List Char), l)

/-- Modelled from the Python 2 `urlparse.urlparse` function, restricted to
URLs without params, query or fragment components (the configured public
URL is a plain base URL). -/
def urlparse (u : String) : UrlParts :=
  let sr := urlparseSchemeSplit u.data
  let np := urlparseNetlocSplit sr.2
  { scheme := ⟨sr.1⟩, netloc := ⟨np.1⟩, path := ⟨np.2⟩ }

/-- Modelled from the Python 2 `urlparse.urlunparse` function, restricted
to URLs without params, query or fragment components. -/
def urlunparse (u : UrlParts) : String :=
  let url := u.path
  let url :=
    if u.netloc ≠ "" ∨ listIsPrefixC ['/', '/'] url.data then
      "//" ++ u.netloc ++
        (if url ≠ "" ∧ url.data.head? ≠ some '/' then "/" ++ url else url)
    else url
  if u.scheme ≠ "" then u.scheme ++ ":" ++ url else url

/-- The attributes of the WSGI request environ that the reconciler reads
and writes: `request.scheme`, `request.host` and `request.script_name`. -/
structure Request where
  scheme : String
  host : String
  script_name : String
deriving DecidableEq, Repr

/-- Modelled from the spec: the request URL computed by the web-serving
contract, "scheme + host + path prefix" (`request.application_url`). -/
def applicationUrl (r : Request) : String :=
  r.scheme ++ "://" ++ r.host ++ r.script_name

/-- Modelled from the spec: the structured JSON error raised by the
reconciler (`_JSONError`, implemented in the external tokenserver package):
an HTTP status code together with a list of message strings serialised into
the JSON body. -/
structure JsonError where
  status_code : Nat
  messages : List String
deriving DecidableEq, Repr

/-- Outcome of running the reconciler on one request: the final state of
the request fields (mutations before a raise included), the raised error if
any, and the list of messages logged at error level. -/
structure ReconcileResult where
  request : Request
  raised : Option JsonError
  logged : List String
deriving DecidableEq, Repr

/-- The multi-line mismatch message built by the reconciler. -/
def mismatchMsg (public_url application_url : String) : String :=
  String.intercalate "\n"
    ["The public_url setting doesn\x27t match the application url.",
     "This will almost certainly cause authentication failures!",
     "    public_url setting is: " ++ public_url,
     "    application url is:    " ++ application_url,
     "You can disable this check by setting the force_wsgi_environ",
     "option in your config file, but do so at your own risk."]

/-- The script-name defaulting step of the reconciler: when the request
has no `SCRIPT_NAME`, it is taken from the path of the public URL with
trailing slashes stripped. -/
def reqAfter (public_url : String) (req : Request) : Request :=
  if req.script_name = "" then
    { req with script_name := rstripSlash (urlparse public_url).path }
  else req

/-- The per-request event listener `reconcile_wsgi_environ_with_public_url`.
Its inputs are the `syncserver.public_url` setting (always a string after
`includeme` ran), the truthiness of the `syncserver.force_wsgi_environ`
setting, and the request; dictionary reads of the settings are threaded in
as parameters. -/
def reconcile (public_url : String) (force : Bool) (req : Request) :
    ReconcileResult :=
  let p := urlparse public_url
  let req := reqAfter public_url req
  let application_url := applicationUrl req
  if public_url ≠ application_url then
    if ¬force then
      let msg := mismatchMsg public_url application_url
      { request := req,
        raised := some { status_code := 500, messages := [msg] },
        logged := [msg] }
    else
      { request :=
          { scheme := p.scheme, host := p.netloc,
            script_name := rstripSlash p.path },
        raised := none, logged := [] }
  else
    { request := req, raised := none, logged := [] }

/-- One default-filling block of `includeme`: if the guard key `g` is
absent from the settings, the listed key/value pairs are written in order;
if it is present the settings are untouched. -/
def writeAll (s : Settings) (ws : List (String × Value)) : Settings :=
  ws.foldl (fun t kv => sset t kv.1 kv.2) s

/-- See `writeAll`: the conditional wrapper testing the guard key. -/
def defaultStep (g : String) (ws : List (String × Value)) (s : Settings) :
    Settings :=
  if scontains s g then s else writeAll s ws

/-- The `tokenserver.allow_new_users` block of `includeme`: when the key
is absent, it is copied from `syncserver.allow_new_users` if the latter
is present. -/
def allowStep (s : Settings) : Settings :=
  if scontains s "tokenserver.allow_new_users" then s
  else
    match sget s "syncserver.allow_new_users" with
    | none => s
    | some v => sset s "tokenserver.allow_new_users" v

/-- The loop body of the `hawkauth.secrets.backend` block of `includeme`:
iterates over a snapshot of the keys and copies every
`tokenserver.secrets.*` entry to the corresponding `hawkauth.secrets.*`
key (`"hawkauth" + key[len("tokenserver"):]`).  The `none` branch is
unreachable when the key list is a snapshot of the settings keys. -/
def hawkCopy : List String → Settings → Settings
  | [], s => s
  | k :: ks, s =>
    if strStartsWith k "tokenserver.secrets." then
      match sget s k with
      | some v => hawkCopy ks (sset s ("hawkauth" ++ strDrop k 11) v)
      | none => hawkCopy ks s
    else hawkCopy ks s

/-- The `hawkauth.secrets.backend` block of `includeme`: when the guard
key is absent, all `tokenserver.secrets.*` entries are mirrored under
`hawkauth.secrets.*`. -/
def hawkStep (s : Settings) : Settings :=
  if scontains s "hawkauth.secrets.backend" then s
  else hawkCopy (skeys s) s

/-- Failure modes of `includeme`: the `RuntimeError` raised when
`syncserver.public_url` is not configured, and the `AttributeError`
raised by `public_url.rstrip("/")` when the configured value is not a
string (the configuration loader can deliver booleans). -/
inductive ConfErr where
  | missingPublicUrl
  | publicUrlNotString
deriving DecidableEq, Repr

/-- Lines 63-69: default the node-assignment backend block. -/
@[reducible] def coreTokens (public_url : String) (sqluri : Value) :
    Settings → Settings :=
  defaultStep "tokenserver.backend"
    [("tokenserver.backend", vStr "syncserver.staticnode.StaticNodeAssignment"),
     ("tokenserver.sqluri", sqluri),
     ("tokenserver.node_url", vStr public_url),
     ("endpoints.sync-1.5", vStr "{node}/storage/1.5/{uid}")]

/-- Lines 70-72: default gevent monkey-patching to off. -/
@[reducible] def coreMonkey : Settings → Settings :=
  defaultStep "tokenserver.monkey_patch_gevent"
    [("tokenserver.monkey_patch_gevent", vBool false)]

/-- Lines 73-75: default the token applications. -/
@[reducible] def coreApps : Settings → Settings :=
  defaultStep "tokenserver.applications"
    [("tokenserver.applications", vStr "sync-1.5")]

/-- Lines 76-79: default to a single fixed signing secret. -/
@[reducible] def coreSecrets (secret : Value) : Settings → Settings :=
  defaultStep "tokenserver.secrets.backend"
    [("tokenserver.secrets.backend", vStr "mozsvc.secrets.FixedSecrets"),
     ("tokenserver.secrets.secrets", vList [secret])]

/-- Lines 90-94: default the sql syncstorage backend block. -/
@[reducible] def coreStorage (sqluri : Value) : Settings → Settings :=
  defaultStep "storage.backend"
    [("storage.backend", vStr "syncstorage.storage.sql.SQLStorage"),
     ("storage.sqluri", sqluri),
     ("storage.create_tables", vBool true)]

/-- Lines 95-97: default the batch-upload API to on. -/
@[reducible] def coreBatch : Settings → Settings :=
  defaultStep "storage.batch_upload_enabled"
    [("storage.batch_upload_enabled", vBool true)]

/-- Lines 98-102: default the remote browserid verifier, with the base of
the public URL as the only audience. -/
@[reducible] def coreBrowserid (public_url : String) : Settings → Settings :=
  defaultStep "browserid.backend"
    [("browserid.backend", vStr "tokenserver.verifiers.RemoteVerifier"),
     ("browserid.audiences",
       vStr (urlunparse { urlparse public_url with path := "" }))]

/-- Lines 108-112: default the metrics secret to a random value. -/
@[reducible] def coreFxa (metricsHex : String) : Settings → Settings :=
  defaultStep "fxa.metrics_uid_secret_key"
    [("fxa.metrics_uid_secret_key", vStr metricsHex)]

/-- The settings-defaulting body of `includeme` (lines 46-112 of
`syncserver/__init__.py`) once `syncserver.public_url` was read
successfully as the string `rawUrl`: the normalised URL is written back,
the `config` entry is dropped, and the default blocks run in source
order.  The two secure-random hex strings and the package root directory
are threaded in as parameters (`os.urandom(32).encode("hex")`,
`os.urandom(16).encode("hex")`, `os.path.dirname(...)`). -/
def defaulterCore (secretHex metricsHex rootdir rawUrl : String)
    (s : Settings) : Settings :=
  let public_url := rstripSlash rawUrl
  let s1 := sset s "syncserver.public_url" (vStr public_url)
  let secret := (sget s1 "syncserver.secret").getD (vStr secretHex)
  let sqluri := (sget s1 "syncserver.sqluri").getD
    (vStr ("sqlite:///" ++ rootdir ++ "/syncserver.db"))
  coreFxa metricsHex
    (coreBrowserid public_url
      (coreBatch
        (coreStorage sqluri
          (hawkStep
            (allowStep
              (coreSecrets secret
                (coreApps
                  (coreMonkey
                    (coreTokens public_url sqluri
                      (spop s1 "config"))))))))))

/-- The settings-validating and defaulting part of `includeme`: reads the
required `syncserver.public_url` setting, fails when it is missing (or not
a string), and otherwise fills in the defaults.  The `loggers` block only
configures process-wide logging and never touches the settings, so it has
no effect here; the remaining statements of `includeme` (umask, pyopenssl
injection, `config.scan`, sub-package includes and the health-check route)
do not read or write the settings mapping either. -/
def includeme (secretHex metricsHex rootdir : String) (s : Settings) :
    Except ConfErr Settings :=
  match sget s "syncserver.public_url" with
  | none => Except.error ConfErr.missingPublicUrl
  | some (vBool _) => Except.error ConfErr.publicUrlNotString
  | some (vList _) => Except.error ConfErr.publicUrlNotString
  | some (vStr rawUrl) =>
      Except.ok (defaulterCore secretHex metricsHex rootdir rawUrl s)

/-- The guard key of the defaulting block that can overwrite a given
dependent key: a dependent key is only rewritten by `includeme` when the
guard key of its block is absent.  Keys outside every block map to
`none`. -/
def governedGuard (k : String) : Option String :=
  if strStartsWith k "hawkauth.secrets." = true then
    some "hawkauth.secrets.backend"
  else if k = "tokenserver.sqluri" ∨ k = "tokenserver.node_url" ∨
      k = "endpoints.sync-1.5" then some "tokenserver.backend"
  else if k = "tokenserver.secrets.secrets" then
    some "tokenserver.secrets.backend"
  else if k = "storage.sqluri" ∨ k = "storage.create_tables" then
    some "storage.backend"
  else if k = "browserid.audiences" then some "browserid.backend"
  else none

/-- A URL scheme as delivered by the web-serving contract (PEP 3333
`wsgi.url_scheme`): a nonempty run of scheme characters. -/
def ValidScheme (s : String) : Prop :=
  s.data ≠ [] ∧ ∀ c ∈ s.data, schemeChar c = true

/-- A host as delivered by the web-serving contract (`HTTP_HOST`, a `host`
or `host:port` value): free of `/`, `?` and `#`. -/
def ValidHost (h : String) : Prop :=
  ∀ c ∈ h.data, ¬(c = '/' ∨ c = '?' ∨ c = '#')

/-- A request whose fields obey the web-serving contract: a scheme made of
scheme characters, a host free of path separators, and a `SCRIPT_NAME`
that is empty or begins with a slash (PEP 3333). -/
def ValidRequest (r : Request) : Prop :=
  ValidScheme r.scheme ∧ ValidHost r.host ∧
    (r.script_name.data = [] ∨ r.script_name.data.head? = some '/')

instance (s : String) : Decidable (ValidScheme s) := by
  unfold ValidScheme; infer_instance

instance (h : String) : Decidable (ValidHost h) := by
  unfold ValidHost; infer_instance

instance (r : Request) : Decidable (ValidRequest r) := by
  unfold ValidRequest; infer_instance

@[simp] theorem sget_nil (k : String) : sget [] k = none := rfl

@[simp] theorem sget_cons (kv : String × Value) (t : Settings) (k : String) :
    sget (kv :: t) k = if kv.1 = k then some kv.2 else sget t k := rfl

theorem sget_sset_self (s : Settings) (k : String) (v : Value) :
    sget (sset s k v) k = some v := by
  induction s with
  | nil => simp [sset]
  | cons kv t ih =>
      obtain ⟨k0, v0⟩ := kv
      by_cases h : k0 = k
      · simp [sset, h]
      · simp [sset, h, ih]

theorem sget_sset_ne (s : Settings) (k k' : String) (v : Value) (h : k ≠ k') :
    sget (sset s k v) k' = sget s k' := by
  induction s with
  | nil => simp [sset, h]
  | cons kv t ih =>
      obtain ⟨k0, v0⟩ := kv
      by_cases hk : k0 = k
      · simp [sset, hk, h]
      · by_cases hk' : k0 = k'
        · simp [sset, hk, hk', Ne.symm h]
        · simp [sset, hk, hk', ih]

theorem sget_spop_self (s : Settings) (k : String) : sget (spop s k) k = none := by
  induction s with
  | nil => simp [spop]
  | cons kv t ih =>
      obtain ⟨k0, v0⟩ := kv
      by_cases h : k0 = k
      · simp [spop, h, ih]
      · simp [spop, h, ih]

theorem sget_spop_ne (s : Settings) (k k' : String) (h : k ≠ k') :
    sget (spop s k) k' = sget s k' := by
  induction s with
  | nil => simp [spop]
  | cons kv t ih =>
      obtain ⟨k0, v0⟩ := kv
      by_cases hk : k0 = k
      · simp [spop, hk, h, Ne.symm h, ih]
      · by_cases hk' : k0 = k'
        · simp [spop, hk, hk', Ne.symm h, ih]
        · simp [spop, hk, hk', ih]

theorem scontains_eq_isSome (s : Settings) (k : String) :
    scontains s k = (sget s k).isSome := by
  induction s with
  | nil => simp [scontains]
  | cons kv t ih =>
      obtain ⟨k0, v0⟩ := kv
      by_cases h : k0 = k
      · simp [scontains, h]
      · simp [scontains, h, ih]

theorem sset_same (s : Settings) (k : String) (v : Value) (h : sget s k = some v) :
    sset s k v = s := by
  induction s with
  | nil => simp [sget] at h
  | cons kv t ih =>
      obtain ⟨k0, v0⟩ := kv
      by_cases hk : k0 = k
      · subst hk
        simp [sget] at h
        simp [sset, h]
      · simp [sget, hk] at h
        simp [sset, hk, ih h]

theorem spop_absent (s : Settings) (k : String) (h : sget s k = none) :
    spop s k = s := by
  induction s with
  | nil => rfl
  | cons kv t ih =>
      obtain ⟨k0, v0⟩ := kv
      by_cases hk : k0 = k
      · simp [sget, hk] at h
      · simp [sget, hk] at h
        simp [spop, hk, ih h]

theorem mem_skeys_of_sget (s : Settings) (k : String) (v : Value)
    (h : sget s k = some v) : k ∈ skeys s := by
  induction s with
  | nil => simp [sget] at h
  | cons kv t ih =>
      obtain ⟨k0, v0⟩ := kv
      by_cases hk : k0 = k
      · simp [skeys, hk]
      · simp [sget, hk] at h
        simp only [skeys, List.map_cons, List.mem_cons]
        exact Or.inr (ih h)

theorem sget_eq_some_of_mem_skeys (s : Settings) (k : String) (h : k ∈ skeys s) :
    ∃ v, sget s k = some v := by
  induction s with
  | nil => simp [skeys] at h
  | cons kv t ih =>
      obtain ⟨k0, v0⟩ := kv
      by_cases hk : k0 = k
      · exact ⟨v0, by simp [sget, hk]⟩
      · simp only [skeys, List.map_cons, List.mem_cons] at h
        rcases h with h | h
        · exact absurd h.symm hk
        · rcases ih h with ⟨v, hv⟩
          exact ⟨v, by simp [sget, hk, hv]⟩

theorem skeys_sset (s : Settings) (k : String) (v : Value) :
    skeys (sset s k v) = if scontains s k then skeys s else skeys s ++ [k] := by
  induction s with
  | nil => simp [sset, skeys, scontains]
  | cons kv t ih =>
      obtain ⟨k0, v0⟩ := kv
      by_cases h : k0 = k
      · simp [sset, skeys, scontains, h]
      · simp only [sset, skeys, scontains, h, if_false, List.map_cons, if_neg h] at ih ⊢
        rw [ih]
        split <;> rfl

theorem SWF_sset (s : Settings) (k : String) (v : Value) (wf : SWF s) :
    SWF (sset s k v) := by
  unfold SWF
  rw [skeys_sset]
  split
  · exact wf
  · next h =>
      rw [List.nodup_append]
      refine ⟨wf, List.nodup_singleton _, ?_⟩
      intro a ha hb
      simp at hb
      subst hb
      rcases sget_eq_some_of_mem_skeys s a ha with ⟨v', hv'⟩
      rw [scontains_eq_isSome, hv'] at h
      simp at h

theorem spop_sublist (s : Settings) (k : String) : List.Sublist (spop s k) s := by
  induction s with
  | nil => simp [spop]
  | cons kv t ih =>
      obtain ⟨k0, v0⟩ := kv
      by_cases h : k0 = k
      · simpa [spop, h] using List.Sublist.cons _ ih
      · simpa [spop, h] using List.Sublist.cons₂ (k0, v0) ih

theorem SWF_spop (s : Settings) (k : String) (wf : SWF s) : SWF (spop s k) :=
  List.Nodup.sublist ((spop_sublist s k).map Prod.fst) wf

theorem scontains_sset_mono (s : Settings) (k k' : String) (v : Value)
    (h : scontains s k = true) : scontains (sset s k' v) k = true := by
  by_cases hk : k' = k
  · subst hk
    rw [scontains_eq_isSome, sget_sset_self]
    rfl
  · rwa [scontains_eq_isSome, sget_sset_ne _ _ _ _ hk, ← scontains_eq_isSome]

example : urlparse "https://example.com/sync" =
    { scheme := "https", netloc := "example.com", path := "/sync" } := by rfl

example : urlparse "http://example.com:5000" =
    { scheme := "http", netloc := "example.com:5000", path := "" } := by rfl

example : urlunparse { urlparse "https://example.com/sync" with path := "" } =
    "https://example.com" := by rfl

example : rstripSlash "https://example.com/" = "https://example.com" := by rfl

example :
    reconcile "https://example.com" false
      { scheme := "https", host := "example.com", script_name := "" } =
    { request := { scheme := "https", host := "example.com", script_name := "" },
      raised := none, logged := [] } := by rfl

example :
    (reconcile "https://example.com" true
      { scheme := "http", host := "other.org", script_name := "" }).request =
    { scheme := "https", host := "example.com", script_name := "" } := by rfl

example :
    (includeme "aa" "bb" "/srv" [("syncserver.public_url",
      vStr "https://example.com/")]).map
        (fun t => sget t "tokenserver.node_url") =
      Except.ok (some (vStr "https://example.com")) := by rfl

example :
    (includeme "aa" "bb" "/srv" [("syncserver.public_url",
      vStr "https://example.com/")]).map
        (fun t => sget t "browserid.audiences") =
      Except.ok (some (vStr "https://example.com")) := by rfl

example :
    (includeme "aa" "bb" "/srv" [("syncserver.public_url",
      vStr "https://example.com/sub/")]).map
        (fun t => sget t "hawkauth.secrets.secrets") =
      Except.ok (some (vList [vStr "aa"])) := by rfl

example :
    includeme "aa" "bb" "/srv" [("syncserver.sqluri", vStr "x")] =
      Except.error ConfErr.missingPublicUrl := by rfl

theorem splitSchemeAux_append (pre rest : List Char)
    (h : ∀ c ∈ pre, c ≠ ':') :
    splitSchemeAux (pre ++ ':' :: rest) = some (pre, rest) := by
  induction pre with
  | nil => simp [splitSchemeAux]
  | cons c t ih =>
      have hc : c ≠ ':' := h c (by simp)
      simp only [List.cons_append, splitSchemeAux, if_neg hc, List.append_eq]
      rw [ih fun c' hc' => h c' (by simp [hc'])]

theorem splitNetloc_no_sep (a b : List Char)
    (h : ∀ c ∈ a, ¬(c = '/' ∨ c = '?' ∨ c = '#')) :
    splitNetloc (a ++ b) = (a ++ (splitNetloc b).1, (splitNetloc b).2) := by
  induction a with
  | nil => simp
  | cons c t ih =>
      have hc := h c (by simp)
      simp only [List.cons_append, splitNetloc, if_neg hc, List.append_eq]
      rw [ih fun c' hc' => h c' (by simp [hc'])]

theorem splitNetloc_length (l : List Char) :
    (splitNetloc l).1.length + (splitNetloc l).2.length = l.length := by
  induction l with
  | nil => simp [splitNetloc]
  | cons c t ih =>
      by_cases hc : c = '/' ∨ c = '?' ∨ c = '#'
      · simp [splitNetloc, hc]
      · simp only [splitNetloc, if_neg hc, List.length_cons]
        omega

theorem length_dropWhile_le (p : Char → Bool) (l : List Char) :
    (l.dropWhile p).length ≤ l.length := by
  induction l with
  | nil => simp
  | cons c t ih =>
      by_cases hc : p c
      · simp only [List.dropWhile, hc]
        exact Nat.le_succ_of_le ih
      · simp [List.dropWhile, hc]

theorem rstripChars_length_le (l : List Char) :
    (rstripChars l).length ≤ l.length := by
  unfold rstripChars
  rw [List.length_reverse]
  calc (l.reverse.dropWhile fun c => c = '/').length
      ≤ l.reverse.length := length_dropWhile_le _ _
    _ = l.length := List.length_reverse l

theorem rstripChars_idem (l : List Char) :
    rstripChars (rstripChars l) = rstripChars l := by
  unfold rstripChars
  rw [List.reverse_reverse, List.dropWhile_idempotent]

theorem rstripSlash_idem (s : String) :
    rstripSlash (rstripSlash s) = rstripSlash s := by
  unfold rstripSlash
  exact congrArg String.mk (rstripChars_idem s.data)

theorem no_colon_of_schemeChar (l : List Char) (h : l.all schemeChar = true) :
    ∀ c ∈ l, c ≠ ':' := by
  intro c hc
  have := (List.all_eq_true.mp h) c hc
  intro hcolon
  subst hcolon
  simp [schemeChar] at this

theorem urlparseSchemeSplit_valid (pre : List Char) (r : List Char)
    (hne : pre ≠ []) (hpre : ∀ c ∈ pre, schemeChar c = true) :
    urlparseSchemeSplit (pre ++ ':' :: '/' :: '/' :: r) =
      (pre.map Char.toLower, '/' :: '/' :: r) := by
  unfold urlparseSchemeSplit
  rw [splitSchemeAux_append pre _ (no_colon_of_schemeChar pre
    (List.all_eq_true.mpr hpre))]
  dsimp only
  rw [if_pos]
  exact Or.inr ⟨hne, List.all_eq_true.mpr hpre, Or.inr (by simp)⟩

/-- Parsing the application URL built from valid request fields: the
scheme is recognised and lowercased, and the network location is exactly
the host followed by the netloc-extension of the script name. -/
theorem urlparse_app_general (sch h sn : String)
    (hs : ValidScheme sch) (hh : ValidHost h) :
    urlparse (sch ++ "://" ++ h ++ sn) =
      { scheme := ⟨sch.data.map Char.toLower⟩,
        netloc := ⟨h.data ++ (splitNetloc sn.data).1⟩,
        path := ⟨(splitNetloc sn.data).2⟩ } := by
  have hdata : (sch ++ "://" ++ h ++ sn).data
      = sch.data ++ ':' :: '/' :: '/' :: (h.data ++ sn.data) := by
    simp [String.data_append]
  unfold urlparse
  rw [hdata, urlparseSchemeSplit_valid sch.data (h.data ++ sn.data) hs.1 hs.2]
  dsimp only
  rw [show urlparseNetlocSplit ('/' :: '/' :: (h.data ++ sn.data))
      = splitNetloc (h.data ++ sn.data) from rfl]
  rw [splitNetloc_no_sep h.data sn.data hh]

/-- Parsing the application URL when the script name is empty or begins
with a slash: the network location is exactly the host and the path is
exactly the script name. -/
theorem urlparse_app (sch h sn : String)
    (hs : ValidScheme sch) (hh : ValidHost h)
    (hsn : sn.data = [] ∨ sn.data.head? = some '/') :
    urlparse (sch ++ "://" ++ h ++ sn) =
      { scheme := ⟨sch.data.map Char.toLower⟩, netloc := h, path := sn } := by
  rw [urlparse_app_general sch h sn hs hh]
  have hsplit : splitNetloc sn.data = ([], sn.data) := by
    rcases hsn with hsn | hsn
    · rw [hsn]
      rfl
    · rcases hl : sn.data with _ | ⟨c, t⟩
      · rfl
      · rw [hl] at hsn
        simp at hsn
        subst hsn
        simp [splitNetloc]
  rw [hsplit, List.append_nil]

/-- Under the web-serving contract, a request whose host differs from the
network location of the configured public URL can never have an
application URL equal to the public URL, not even after the reconciler
replaced an empty script name by the stripped path of the public URL. -/
theorem appUrl_ne_public (sch h sn pu : String)
    (hs : ValidScheme sch) (hh : ValidHost h)
    (hne : h ≠ (urlparse pu).netloc)
    (hsn : sn.data = [] ∨ sn.data.head? = some '/' ∨
      sn = rstripSlash (urlparse pu).path) :
    sch ++ "://" ++ h ++ sn ≠ pu := by
  intro heq
  rcases hl : sn.data with _ | ⟨c, t⟩
  · apply hne
    rw [← heq, urlparse_app sch h sn hs hh (Or.inl hl)]
  · by_cases hc : c = '/'
    · apply hne
      rw [← heq, urlparse_app sch h sn hs hh (Or.inr (by simp [hl, hc]))]
    · have hsn' : sn = rstripSlash (urlparse pu).path := by
        rcases hsn with h1 | h1 | h1
        · rw [hl] at h1; cases h1
        · rw [hl] at h1; simp at h1; exact absurd h1 hc
        · exact h1
      have hparse := urlparse_app_general sch h sn hs hh
      rw [heq] at hparse
      by_cases hsep : c = '/' ∨ c = '?' ∨ c = '#'
      · apply hne
        rw [hparse]
        have hz : splitNetloc sn.data = ([], sn.data) := by
          rw [hl]; simp [splitNetloc, hsep]
        rw [hz]
        simp
      · have hsplit : splitNetloc sn.data
            = (c :: (splitNetloc t).1, (splitNetloc t).2) := by
          rw [hl]; simp [splitNetloc, hsep]
        have hpath : (urlparse pu).path = ⟨(splitNetloc t).2⟩ := by
          rw [hparse, hsplit]
        have hlen1 : sn.data.length = (splitNetloc t).1.length + 1 +
            (splitNetloc t).2.length := by
          rw [hl]
          have h2 := splitNetloc_length t
          simp only [List.length_cons]
          omega
        have hlen2 : sn.data.length ≤ (splitNetloc t).2.length := by
          rw [hsn', hpath]
          exact rstripChars_length_le _
        omega

theorem listIsPrefixC_append (p t : List Char) :
    listIsPrefixC p (p ++ t) = true := by
  induction p with
  | nil => rfl
  | cons c r ih => simp [listIsPrefixC, ih]

theorem listIsPrefixC_iff (p l : List Char) :
    listIsPrefixC p l = true ↔ ∃ t, l = p ++ t := by
  constructor
  · intro h
    induction p generalizing l with
    | nil => exact ⟨l, rfl⟩
    | cons c r ih =>
        cases l with
        | nil => cases h
        | cons c' l' =>
            by_cases hc : c = c'
            · subst hc
              rcases ih l' (by simpa [listIsPrefixC] using h) with ⟨t, ht⟩
              exact ⟨t, by rw [ht]; rfl⟩
            · simp [listIsPrefixC, fun h' : c' = c => hc h'.symm] at h
              exact absurd h.1 hc
  · rintro ⟨t, rfl⟩
    exact listIsPrefixC_append p t

theorem strStartsWith_iff (s p : String) :
    strStartsWith s p = true ↔ ∃ t, s.data = p.data ++ t := by
  unfold strStartsWith
  exact listIsPrefixC_iff p.data s.data

theorem str_ne_of_data_head (a b : String)
    (h : a.data.head? ≠ b.data.head?) : a ≠ b :=
  fun he => h (by rw [he])

theorem head?_append_lit (p : String) (c : Char) (hp : p.data.head? = some c)
    (t : List Char) : (p.data ++ t).head? = some c := by
  rw [List.head?_append, hp]
  rfl

theorem head_of_token_prefixed (k : String)
    (h : strStartsWith k "tokenserver.secrets." = true) :
    k.data.head? = some 't' := by
  obtain ⟨t, ht⟩ := (strStartsWith_iff k _).mp h
  rw [ht]
  exact head?_append_lit _ _ (by decide) t

/-- The data of the renamed key produced by the hawkauth copy loop. -/
theorem hawk_rename_data (k : String)
    (h : strStartsWith k "tokenserver.secrets." = true) :
    ∃ t, k.data = "tokenserver.secrets.".data ++ t ∧
      ("hawkauth" ++ strDrop k 11).data = "hawkauth.secrets.".data ++ t := by
  obtain ⟨t, ht⟩ := (strStartsWith_iff k _).mp h
  refine ⟨t, ht, ?_⟩
  show "hawkauth".data ++ (strDrop k 11).data = _
  show "hawkauth".data ++ k.data.drop 11 = _
  rw [ht, List.drop_append_of_le_length (by decide)]
  rw [show "tokenserver.secrets.".data.drop 11 = ".secrets.".data from by decide]
  rw [← List.append_assoc]
  rw [show "hawkauth".data ++ ".secrets.".data = "hawkauth.secrets.".data
    from by decide]

theorem head_of_hawk_rename (k : String)
    (h : strStartsWith k "tokenserver.secrets." = true) :
    ("hawkauth" ++ strDrop k 11).data.head? = some 'h' := by
  obtain ⟨t, _, ht⟩ := hawk_rename_data k h
  rw [ht]
  exact head?_append_lit _ _ (by decide) t

theorem hawk_rename_startsWith (k : String)
    (h : strStartsWith k "tokenserver.secrets." = true) :
    strStartsWith ("hawkauth" ++ strDrop k 11) "hawkauth.secrets." = true := by
  obtain ⟨t, _, ht⟩ := hawk_rename_data k h
  exact (strStartsWith_iff _ _).mpr ⟨t, ht⟩

theorem hawk_rename_injective (k k' : String)
    (h : strStartsWith k "tokenserver.secrets." = true)
    (h' : strStartsWith k' "tokenserver.secrets." = true)
    (he : "hawkauth" ++ strDrop k 11 = "hawkauth" ++ strDrop k' 11) :
    k = k' := by
  obtain ⟨t, hk, hr⟩ := hawk_rename_data k h
  obtain ⟨t', hk', hr'⟩ := hawk_rename_data k' h'
  have : "hawkauth.secrets.".data ++ t = "hawkauth.secrets.".data ++ t' := by
    rw [← hr, ← hr', he]
  have ht : t = t' := List.append_cancel_left this
  exact String.ext (by rw [hk, hk', ht])

theorem sget_writeAll_not_mem (ws : List (String × Value)) (s : Settings)
    (k : String) (h : k ∉ ws.map Prod.fst) :
    sget (writeAll s ws) k = sget s k := by
  induction ws generalizing s with
  | nil => rfl
  | cons kv t ih =>
      have h1 : k ≠ kv.1 := by
        intro he
        exact h (by simp [he])
      have h2 : k ∉ t.map Prod.fst := fun hm => h (by simp [hm])
      show sget (writeAll (sset s kv.1 kv.2) t) k = sget s k
      rw [ih (sset s kv.1 kv.2) h2, sget_sset_ne _ _ _ _ (Ne.symm h1)]

theorem scontains_writeAll_mono (ws : List (String × Value)) (s : Settings)
    (k : String) (h : scontains s k = true) :
    scontains (writeAll s ws) k = true := by
  induction ws generalizing s with
  | nil => exact h
  | cons kv t ih =>
      exact ih (sset s kv.1 kv.2) (scontains_sset_mono s k kv.1 kv.2 h)

theorem scontains_writeAll_mem (ws : List (String × Value)) (s : Settings)
    (k : String) (h : k ∈ ws.map Prod.fst) :
    scontains (writeAll s ws) k = true := by
  induction ws generalizing s with
  | nil => cases h
  | cons kv t ih =>
      by_cases hk : k ∈ t.map Prod.fst
      · exact ih (sset s kv.1 kv.2) hk
      · have hkv : k = kv.1 := by
          have h' := h
          rw [List.map_cons, List.mem_cons] at h'
          rcases h' with h1 | h1
          · exact h1
          · exact absurd h1 hk
        rw [hkv]
        exact scontains_writeAll_mono t (sset s kv.1 kv.2) kv.1
          (by rw [scontains_eq_isSome, sget_sset_self]; rfl)

theorem SWF_writeAll (ws : List (String × Value)) (s : Settings)
    (wf : SWF s) : SWF (writeAll s ws) := by
  induction ws generalizing s with
  | nil => exact wf
  | cons kv t ih => exact ih (sset s kv.1 kv.2) (SWF_sset s kv.1 kv.2 wf)

theorem defaultStep_skip (g : String) (ws : List (String × Value))
    (s : Settings) (h : scontains s g = true) : defaultStep g ws s = s := by
  unfold defaultStep
  rw [if_pos h]

theorem sget_defaultStep_not_mem (g : String) (ws : List (String × Value))
    (s : Settings) (k : String) (h : k ∉ ws.map Prod.fst) :
    sget (defaultStep g ws s) k = sget s k := by
  unfold defaultStep
  split
  · rfl
  · exact sget_writeAll_not_mem ws s k h

theorem scontains_defaultStep_guard (g : String) (ws : List (String × Value))
    (s : Settings) (h : g ∈ ws.map Prod.fst) :
    scontains (defaultStep g ws s) g = true := by
  unfold defaultStep
  split
  · assumption
  · exact scontains_writeAll_mem ws s g h

theorem scontains_defaultStep_mono (g : String) (ws : List (String × Value))
    (s : Settings) (k : String) (h : scontains s k = true) :
    scontains (defaultStep g ws s) k = true := by
  unfold defaultStep
  split
  · exact h
  · exact scontains_writeAll_mono ws s k h

theorem SWF_defaultStep (g : String) (ws : List (String × Value))
    (s : Settings) (wf : SWF s) : SWF (defaultStep g ws s) := by
  unfold defaultStep
  split
  · exact wf
  · exact SWF_writeAll ws s wf

theorem sget_defaultStep_preserved (g : String) (ws : List (String × Value))
    (s : Settings) (k : String) (v : Value) (hk : sget s k = some v)
    (h : k ∈ ws.map Prod.fst → k = g ∨ scontains s g = true) :
    sget (defaultStep g ws s) k = some v := by
  unfold defaultStep
  split
  · exact hk
  · next hg =>
      by_cases hmem : k ∈ ws.map Prod.fst
      · rcases h hmem with h1 | h1
        · subst h1
          rw [scontains_eq_isSome, hk] at hg
          simp at hg
        · exact absurd h1 hg
      · rw [sget_writeAll_not_mem ws s k hmem]
        exact hk

theorem sget_allowStep_preserved (s : Settings) (k : String) (v : Value)
    (hk : sget s k = some v) : sget (allowStep s) k = some v := by
  unfold allowStep
  split
  · exact hk
  · next hg =>
      split
      · exact hk
      · by_cases hke : k = "tokenserver.allow_new_users"
        · subst hke
          rw [scontains_eq_isSome, hk] at hg
          simp at hg
        · rw [sget_sset_ne _ _ _ _ (Ne.symm hke)]
          exact hk

theorem sget_allowStep_ne (s : Settings) (k : String)
    (h : k ≠ "tokenserver.allow_new_users") :
    sget (allowStep s) k = sget s k := by
  unfold allowStep
  split
  · rfl
  · split
    · rfl
    · exact sget_sset_ne _ _ _ _ (Ne.symm h)

theorem scontains_allowStep_mono (s : Settings) (k : String)
    (h : scontains s k = true) : scontains (allowStep s) k = true := by
  unfold allowStep
  split
  · exact h
  · split
    · exact h
    · exact scontains_sset_mono s k _ _ h

theorem SWF_allowStep (s : Settings) (wf : SWF s) : SWF (allowStep s) := by
  unfold allowStep
  split
  · exact wf
  · split
    · exact wf
    · exact SWF_sset s _ _ wf

theorem sget_hawkCopy_no_write (ks : List String) (s : Settings) (k : String)
    (h : ∀ k' ∈ ks, strStartsWith k' "tokenserver.secrets." = true →
      "hawkauth" ++ strDrop k' 11 ≠ k) :
    sget (hawkCopy ks s) k = sget s k := by
  induction ks generalizing s with
  | nil => rfl
  | cons k0 t ih =>
      have hrest : ∀ k' ∈ t, strStartsWith k' "tokenserver.secrets." = true →
          "hawkauth" ++ strDrop k' 11 ≠ k :=
        fun k' hk' => h k' (by simp [hk'])
      unfold hawkCopy
      split
      · next hp =>
          rcases hv : sget s k0 with _ | v
          · exact ih s hrest
          · rw [ih _ hrest, sget_sset_ne _ _ _ _ (h k0 (by simp) hp)]
      · exact ih s hrest

theorem scontains_hawkCopy_mono (ks : List String) (s : Settings) (k : String)
    (h : scontains s k = true) : scontains (hawkCopy ks s) k = true := by
  induction ks generalizing s with
  | nil => exact h
  | cons k0 t ih =>
      unfold hawkCopy
      split
      · rcases hv : sget s k0 with _ | v
        · exact ih s h
        · exact ih _ (scontains_sset_mono s k _ _ h)
      · exact ih s h

theorem SWF_hawkCopy (ks : List String) (s : Settings) (wf : SWF s) :
    SWF (hawkCopy ks s) := by
  induction ks generalizing s with
  | nil => exact wf
  | cons k0 t ih =>
      unfold hawkCopy
      split
      · rcases hv : sget s k0 with _ | v
        · exact ih s wf
        · exact ih _ (SWF_sset s _ _ wf)
      · exact ih s wf

theorem sget_hawkCopy_copied (ks : List String) :
    ∀ (s : Settings) (k : String) (v : Value), k ∈ ks →
      strStartsWith k "tokenserver.secrets." = true → sget s k = some v →
      sget (hawkCopy ks s) ("hawkauth" ++ strDrop k 11) = some v := by
  induction ks with
  | nil =>
      intro s k v hmem
      cases hmem
  | cons k0 t ih =>
      intro s k v hmem hp hv
      unfold hawkCopy
      split
      · next hp0 =>
          rcases hv0 : sget s k0 with _ | v0
          · rcases List.mem_cons.mp hmem with h1 | h1
            · subst h1
              rw [hv] at hv0
              cases hv0
            · exact ih s k v h1 hp hv
          · by_cases hkt : k ∈ t
            · refine ih _ k v hkt hp ?_
              rw [sget_sset_ne]
              · exact hv
              · intro he
                have hhd := head_of_hawk_rename k0 hp0
                rw [he, head_of_token_prefixed k hp] at hhd
                cases hhd
            · have hk0 : k = k0 := by
                rcases List.mem_cons.mp hmem with h1 | h1
                · exact h1
                · exact absurd h1 hkt
              subst hk0
              rw [hv] at hv0
              injection hv0 with hv0
              subst hv0
              rw [sget_hawkCopy_no_write]
              · exact sget_sset_self s _ v
              · intro k' hk' hp' he
                exact hkt (hawk_rename_injective k' k hp' hp he ▸ hk')
      · next hp0 =>
          rcases List.mem_cons.mp hmem with h1 | h1
          · subst h1
            exact absurd hp hp0
          · exact ih s k v h1 hp hv

theorem sget_hawkStep_frame (s : Settings) (k : String)
    (h : ¬strStartsWith k "hawkauth.secrets." = true) :
    sget (hawkStep s) k = sget s k := by
  unfold hawkStep
  split
  · rfl
  · refine sget_hawkCopy_no_write _ s k ?_
    intro k' _ hp' he
    exact h (he ▸ hawk_rename_startsWith k' hp')

theorem scontains_hawkStep_mono (s : Settings) (k : String)
    (h : scontains s k = true) : scontains (hawkStep s) k = true := by
  unfold hawkStep
  split
  · exact h
  · exact scontains_hawkCopy_mono _ s k h

theorem SWF_hawkStep (s : Settings) (wf : SWF s) : SWF (hawkStep s) := by
  unfold hawkStep
  split
  · exact wf
  · exact SWF_hawkCopy _ s wf

/-- When `tokenserver.secrets.backend` is present, the hawkauth block
always leaves `hawkauth.secrets.backend` present (either it was already
there, or the copy loop just mirrored the tokenserver key). -/
theorem hawkStep_guard (s : Settings)
    (h : scontains s "tokenserver.secrets.backend" = true) :
    scontains (hawkStep s) "hawkauth.secrets.backend" = true := by
  unfold hawkStep
  split
  · assumption
  · rw [scontains_eq_isSome] at h
    rcases hv : sget s "tokenserver.secrets.backend" with _ | v
    · rw [hv] at h
      cases h
    · have hc := sget_hawkCopy_copied (skeys s) s
        "tokenserver.secrets.backend" v
        (mem_skeys_of_sget s _ v hv) (by decide) hv
      rw [show ("hawkauth" ++ strDrop "tokenserver.secrets.backend" 11)
        = "hawkauth.secrets.backend" from by decide] at hc
      rw [scontains_eq_isSome, hc]
      rfl

theorem sget_coreTokens_ne (pu : String) (sq : Value) (s : Settings)
    (k : String) (h1 : k ≠ "tokenserver.backend") (h2 : k ≠ "tokenserver.sqluri")
    (h3 : k ≠ "tokenserver.node_url") (h4 : k ≠ "endpoints.sync-1.5") :
    sget (coreTokens pu sq s) k = sget s k :=
  sget_defaultStep_not_mem _ _ s k (by simp [h1, h2, h3, h4])

theorem sget_coreMonkey_ne (s : Settings) (k : String)
    (h : k ≠ "tokenserver.monkey_patch_gevent") :
    sget (coreMonkey s) k = sget s k :=
  sget_defaultStep_not_mem _ _ s k (by simp [h])

theorem sget_coreApps_ne (s : Settings) (k : String)
    (h : k ≠ "tokenserver.applications") :
    sget (coreApps s) k = sget s k :=
  sget_defaultStep_not_mem _ _ s k (by simp [h])

theorem sget_coreSecrets_ne (sec : Value) (s : Settings) (k : String)
    (h1 : k ≠ "tokenserver.secrets.backend")
    (h2 : k ≠ "tokenserver.secrets.secrets") :
    sget (coreSecrets sec s) k = sget s k :=
  sget_defaultStep_not_mem _ _ s k (by simp [h1, h2])

theorem sget_coreStorage_ne (sq : Value) (s : Settings) (k : String)
    (h1 : k ≠ "storage.backend") (h2 : k ≠ "storage.sqluri")
    (h3 : k ≠ "storage.create_tables") :
    sget (coreStorage sq s) k = sget s k :=
  sget_defaultStep_not_mem _ _ s k (by simp [h1, h2, h3])

theorem sget_coreBatch_ne (s : Settings) (k : String)
    (h : k ≠ "storage.batch_upload_enabled") :
    sget (coreBatch s) k = sget s k :=
  sget_defaultStep_not_mem _ _ s k (by simp [h])

theorem sget_coreBrowserid_ne (pu : String) (s : Settings) (k : String)
    (h1 : k ≠ "browserid.backend") (h2 : k ≠ "browserid.audiences") :
    sget (coreBrowserid pu s) k = sget s k :=
  sget_defaultStep_not_mem _ _ s k (by simp [h1, h2])

theorem sget_coreFxa_ne (b : String) (s : Settings) (k : String)
    (h : k ≠ "fxa.metrics_uid_secret_key") :
    sget (coreFxa b s) k = sget s k :=
  sget_defaultStep_not_mem _ _ s k (by simp [h])

/-- When a key that some block can overwrite is already present together
with the guard of its block, the block leaves it alone.  The condition for
`hawkauth.secrets.*` keys is the presence of `hawkauth.secrets.backend`. -/
theorem sget_hawkStep_preserved (s : Settings) (k : String) (v : Value)
    (hk : sget s k = some v)
    (hcond : strStartsWith k "hawkauth.secrets." = true →
      scontains s "hawkauth.secrets.backend" = true) :
    sget (hawkStep s) k = some v := by
  unfold hawkStep
  split
  · exact hk
  · next hg =>
      by_cases hp : strStartsWith k "hawkauth.secrets." = true
      · exact absurd (hcond hp) hg
      · rw [sget_hawkCopy_no_write _ _ _
          (fun k' _ hp' he => hp (by rw [← he]; exact hawk_rename_startsWith k' hp'))]
        exact hk

/-- When `syncserver.allow_new_users` is present, the allow-new-users
block always leaves `tokenserver.allow_new_users` present. -/
theorem allowStep_guard (s : Settings) (v : Value)
    (h : sget s "syncserver.allow_new_users" = some v) :
    scontains (allowStep s) "tokenserver.allow_new_users" = true := by
  unfold allowStep
  split
  · assumption
  · rw [h, scontains_eq_isSome, sget_sset_self]
    rfl

theorem allowStep_id (s : Settings)
    (h : scontains s "tokenserver.allow_new_users" = true ∨
      sget s "syncserver.allow_new_users" = none) : allowStep s = s := by
  unfold allowStep
  split
  · rfl
  · next hg =>
      rcases h with h | h
      · exact absurd h hg
      · rw [h]

theorem hawkStep_id (s : Settings)
    (h : scontains s "hawkauth.secrets.backend" = true) : hawkStep s = s := by
  unfold hawkStep
  rw [if_pos h]

/-- Inversion of a successful `includeme` run: the public URL was present
as a string and the result is the defaulted settings. -/
theorem includeme_ok_inv (a b c : String) (s s' : Settings)
    (hrun : includeme a b c s = Except.ok s') :
    ∃ raw, sget s "syncserver.public_url" = some (vStr raw) ∧
      s' = defaulterCore a b c raw s := by
  unfold includeme at hrun
  rcases hv : sget s "syncserver.public_url" with _ | v
  · rw [hv] at hrun
    cases hrun
  · cases v with
    | vStr raw =>
        rw [hv] at hrun
        injection hrun with hrun
        exact ⟨raw, rfl, hrun.symm⟩
    | vBool bb =>
        rw [hv] at hrun
        cases hrun
    | vList l =>
        rw [hv] at hrun
        cases hrun

/-- The defaulted settings never contain the `config` key. -/
theorem defaulterCore_config (a b c raw : String) (s : Settings) :
    sget (defaulterCore a b c raw s) "config" = none := by
  simp only [defaulterCore]
  rw [sget_coreFxa_ne _ _ "config" (by decide),
      sget_coreBrowserid_ne _ _ "config" (by decide) (by decide),
      sget_coreBatch_ne _ "config" (by decide),
      sget_coreStorage_ne _ _ "config" (by decide) (by decide) (by decide),
      sget_hawkStep_frame _ "config" (by decide),
      sget_allowStep_ne _ "config" (by decide),
      sget_coreSecrets_ne _ _ "config" (by decide) (by decide),
      sget_coreApps_ne _ "config" (by decide),
      sget_coreMonkey_ne _ "config" (by decide),
      sget_coreTokens_ne _ _ _ "config" (by decide) (by decide) (by decide)
        (by decide),
      sget_spop_self]

/-- The defaulted settings map `syncserver.public_url` to the
trailing-slash-stripped configured URL. -/
theorem defaulterCore_publicUrl (a b c raw : String) (s : Settings) :
    sget (defaulterCore a b c raw s) "syncserver.public_url"
      = some (vStr (rstripSlash raw)) := by
  simp only [defaulterCore]
  rw [sget_coreFxa_ne _ _ "syncserver.public_url" (by decide),
      sget_coreBrowserid_ne _ _ "syncserver.public_url" (by decide) (by decide),
      sget_coreBatch_ne _ "syncserver.public_url" (by decide),
      sget_coreStorage_ne _ _ "syncserver.public_url" (by decide) (by decide)
        (by decide),
      sget_hawkStep_frame _ "syncserver.public_url" (by decide),
      sget_allowStep_ne _ "syncserver.public_url" (by decide),
      sget_coreSecrets_ne _ _ "syncserver.public_url" (by decide) (by decide),
      sget_coreApps_ne _ "syncserver.public_url" (by decide),
      sget_coreMonkey_ne _ "syncserver.public_url" (by decide),
      sget_coreTokens_ne _ _ _ "syncserver.public_url" (by decide) (by decide)
        (by decide) (by decide),
      sget_spop_ne _ _ _ (by decide),
      sget_sset_self]

/-- The defaulter never writes `syncserver.allow_new_users`. -/
theorem defaulterCore_sanu (a b c raw : String) (s : Settings) :
    sget (defaulterCore a b c raw s) "syncserver.allow_new_users"
      = sget s "syncserver.allow_new_users" := by
  simp only [defaulterCore]
  rw [sget_coreFxa_ne _ _ "syncserver.allow_new_users" (by decide),
      sget_coreBrowserid_ne _ _ "syncserver.allow_new_users" (by decide)
        (by decide),
      sget_coreBatch_ne _ "syncserver.allow_new_users" (by decide),
      sget_coreStorage_ne _ _ "syncserver.allow_new_users" (by decide)
        (by decide) (by decide),
      sget_hawkStep_frame _ "syncserver.allow_new_users" (by decide),
      sget_allowStep_ne _ "syncserver.allow_new_users" (by decide),
      sget_coreSecrets_ne _ _ "syncserver.allow_new_users" (by decide)
        (by decide),
      sget_coreApps_ne _ "syncserver.allow_new_users" (by decide),
      sget_coreMonkey_ne _ "syncserver.allow_new_users" (by decide),
      sget_coreTokens_ne _ _ _ "syncserver.allow_new_users" (by decide)
        (by decide) (by decide) (by decide),
      sget_spop_ne _ _ _ (by decide),
      sget_sset_ne _ _ _ _ (by decide)]

/-- The defaulter preserves well-formedness of the settings mapping. -/
theorem SWF_defaulterCore (a b c raw : String) (s : Settings) (wf : SWF s) :
    SWF (defaulterCore a b c raw s) := by
  simp only [defaulterCore]
  exact SWF_defaultStep _ _ _ (SWF_defaultStep _ _ _ (SWF_defaultStep _ _ _
    (SWF_defaultStep _ _ _ (SWF_hawkStep _ (SWF_allowStep _
      (SWF_defaultStep _ _ _ (SWF_defaultStep _ _ _ (SWF_defaultStep _ _ _
        (SWF_defaultStep _ _ _ (SWF_spop _ _ (SWF_sset _ _ _ wf)))))))))))

theorem defaultStep_run (g : String) (ws : List (String × Value)) (s : Settings)
    (h : sget s g = none) : defaultStep g ws s = writeAll s ws := by
  have hc : scontains s g = false := by
    rw [scontains_eq_isSome, h]
    rfl
  simp [defaultStep, hc]

theorem token_prefix_append (sfx : String) :
    strStartsWith ("tokenserver.secrets." ++ sfx) "tokenserver.secrets." = true :=
  (strStartsWith_iff _ _).mpr ⟨sfx.data, String.data_append _ _⟩

theorem token_append_head (sfx : String) :
    ("tokenserver.secrets." ++ sfx).data.head? = some 't' := by
  rw [String.data_append]
  exact head?_append_lit _ _ (by decide) _

theorem hawk_append_head (sfx : String) :
    ("hawkauth.secrets." ++ sfx).data.head? = some 'h' := by
  rw [String.data_append]
  exact head?_append_lit _ _ (by decide) _

theorem not_hawk_prefixed (k : String) (c : Char) (hh : k.data.head? = some c)
    (hc : c ≠ 'h') : ¬strStartsWith k "hawkauth.secrets." = true := by
  intro hp
  obtain ⟨t, ht⟩ := (strStartsWith_iff _ _).mp hp
  rw [ht, head?_append_lit "hawkauth.secrets." 'h' (by decide) t] at hh
  injection hh with hh
  exact hc hh.symm

theorem hawk_rename_append (sfx : String) :
    "hawkauth" ++ strDrop ("tokenserver.secrets." ++ sfx) 11
      = "hawkauth.secrets." ++ sfx := by
  apply String.ext
  show "hawkauth".data ++ ("tokenserver.secrets." ++ sfx).data.drop 11 = _
  rw [String.data_append, List.drop_append_of_le_length (by decide)]
  rw [show "tokenserver.secrets.".data.drop 11 = ".secrets.".data from by decide]
  rw [← List.append_assoc]
  rw [show "hawkauth".data ++ ".secrets.".data = "hawkauth.secrets.".data
    from by decide]
  rw [String.data_append]

/-- Rendering a parse result whose path was emptied: exactly the scheme
and network location. -/
theorem urlunparse_no_path (u : UrlParts) (hs : u.scheme ≠ "")
    (hn : u.netloc ≠ "") :
    urlunparse { u with path := "" } = u.scheme ++ "://" ++ u.netloc := by
  unfold urlunparse
  dsimp only
  rw [if_pos hs, if_pos (Or.inl hn), if_neg (by simp)]
  apply String.ext
  simp [String.data_append]

theorem coreBrowserid_backend_out (pu : String) (s : Settings)
    (hg : sget s "browserid.backend" = none) :
    sget (coreBrowserid pu s) "browserid.backend"
      = some (vStr "tokenserver.verifiers.RemoteVerifier") := by
  unfold coreBrowserid
  rw [defaultStep_run _ _ _ hg]
  show sget (sset (sset s "browserid.backend" _) "browserid.audiences" _)
    "browserid.backend" = _
  rw [sget_sset_ne _ _ _ _ (by decide), sget_sset_self]

theorem coreBrowserid_audiences_out (pu : String) (s : Settings)
    (hg : sget s "browserid.backend" = none) :
    sget (coreBrowserid pu s) "browserid.audiences"
      = some (vStr (urlunparse { urlparse pu with path := "" })) := by
  unfold coreBrowserid
  rw [defaultStep_run _ _ _ hg]
  show sget (sset (sset s "browserid.backend" _) "browserid.audiences" _)
    "browserid.audiences" = _
  rw [sget_sset_self]

theorem defaulterCore_guard_tokens (a b c raw : String) (s : Settings) :
    scontains (defaulterCore a b c raw s) "tokenserver.backend" = true := by
  simp only [defaulterCore]
  apply scontains_defaultStep_mono
  apply scontains_defaultStep_mono
  apply scontains_defaultStep_mono
  apply scontains_defaultStep_mono
  apply scontains_hawkStep_mono
  apply scontains_allowStep_mono
  apply scontains_defaultStep_mono
  apply scontains_defaultStep_mono
  apply scontains_defaultStep_mono
  apply scontains_defaultStep_guard
  simp

theorem defaulterCore_guard_monkey (a b c raw : String) (s : Settings) :
    scontains (defaulterCore a b c raw s) "tokenserver.monkey_patch_gevent"
      = true := by
  simp only [defaulterCore]
  apply scontains_defaultStep_mono
  apply scontains_defaultStep_mono
  apply scontains_defaultStep_mono
  apply scontains_defaultStep_mono
  apply scontains_hawkStep_mono
  apply scontains_allowStep_mono
  apply scontains_defaultStep_mono
  apply scontains_defaultStep_mono
  apply scontains_defaultStep_guard
  simp

theorem defaulterCore_guard_apps (a b c raw : String) (s : Settings) :
    scontains (defaulterCore a b c raw s) "tokenserver.applications" = true := by
  simp only [defaulterCore]
  apply scontains_defaultStep_mono
  apply scontains_defaultStep_mono
  apply scontains_defaultStep_mono
  apply scontains_defaultStep_mono
  apply scontains_hawkStep_mono
  apply scontains_allowStep_mono
  apply scontains_defaultStep_mono
  apply scontains_defaultStep_guard
  simp

theorem defaulterCore_guard_secrets (a b c raw : String) (s : Settings) :
    scontains (defaulterCore a b c raw s) "tokenserver.secrets.backend"
      = true := by
  simp only [defaulterCore]
  apply scontains_defaultStep_mono
  apply scontains_defaultStep_mono
  apply scontains_defaultStep_mono
  apply scontains_defaultStep_mono
  apply scontains_hawkStep_mono
  apply scontains_allowStep_mono
  apply scontains_defaultStep_guard
  simp

theorem defaulterCore_guard_hawk (a b c raw : String) (s : Settings) :
    scontains (defaulterCore a b c raw s) "hawkauth.secrets.backend"
      = true := by
  simp only [defaulterCore]
  apply scontains_defaultStep_mono
  apply scontains_defaultStep_mono
  apply scontains_defaultStep_mono
  apply scontains_defaultStep_mono
  apply hawkStep_guard
  apply scontains_allowStep_mono
  apply scontains_defaultStep_guard
  simp

theorem defaulterCore_guard_storage (a b c raw : String) (s : Settings) :
    scontains (defaulterCore a b c raw s) "storage.backend" = true := by
  simp only [defaulterCore]
  apply scontains_defaultStep_mono
  apply scontains_defaultStep_mono
  apply scontains_defaultStep_mono
  apply scontains_defaultStep_guard
  simp

theorem defaulterCore_guard_batch (a b c raw : String) (s : Settings) :
    scontains (defaulterCore a b c raw s) "storage.batch_upload_enabled"
      = true := by
  simp only [defaulterCore]
  apply scontains_defaultStep_mono
  apply scontains_defaultStep_mono
  apply scontains_defaultStep_guard
  simp

theorem defaulterCore_guard_browserid (a b c raw : String) (s : Settings) :
    scontains (defaulterCore a b c raw s) "browserid.backend" = true := by
  simp only [defaulterCore]
  apply scontains_defaultStep_mono
  apply scontains_defaultStep_guard
  simp

theorem defaulterCore_guard_fxa (a b c raw : String) (s : Settings) :
    scontains (defaulterCore a b c raw s) "fxa.metrics_uid_secret_key"
      = true := by
  simp only [defaulterCore]
  apply scontains_defaultStep_guard
  simp

/-- When the caller supplied `syncserver.allow_new_users`, the defaulted
settings always contain `tokenserver.allow_new_users`. -/
theorem defaulterCore_allow (a b c raw : String) (s : Settings) (v : Value)
    (h : sget s "syncserver.allow_new_users" = some v) :
    scontains (defaulterCore a b c raw s) "tokenserver.allow_new_users"
      = true := by
  simp only [defaulterCore]
  apply scontains_defaultStep_mono
  apply scontains_defaultStep_mono
  apply scontains_defaultStep_mono
  apply scontains_defaultStep_mono
  apply scontains_hawkStep_mono
  apply allowStep_guard _ v
  rw [sget_coreSecrets_ne _ _ "syncserver.allow_new_users" (by decide)
        (by decide),
      sget_coreApps_ne _ "syncserver.allow_new_users" (by decide),
      sget_coreMonkey_ne _ "syncserver.allow_new_users" (by decide),
      sget_coreTokens_ne _ _ _ "syncserver.allow_new_users" (by decide)
        (by decide) (by decide) (by decide),
      sget_spop_ne _ _ _ (by decide),
      sget_sset_ne _ _ _ _ (by decide)]
  exact h

theorem coreTokens_skip (pu : String) (sq : Value) (s : Settings)
    (h : scontains s "tokenserver.backend" = true) : coreTokens pu sq s = s :=
  defaultStep_skip _ _ s h

theorem coreMonkey_skip (s : Settings)
    (h : scontains s "tokenserver.monkey_patch_gevent" = true) :
    coreMonkey s = s :=
  defaultStep_skip _ _ s h

theorem coreApps_skip (s : Settings)
    (h : scontains s "tokenserver.applications" = true) : coreApps s = s :=
  defaultStep_skip _ _ s h

theorem coreSecrets_skip (sec : Value) (s : Settings)
    (h : scontains s "tokenserver.secrets.backend" = true) :
    coreSecrets sec s = s :=
  defaultStep_skip _ _ s h

theorem coreStorage_skip (sq : Value) (s : Settings)
    (h : scontains s "storage.backend" = true) : coreStorage sq s = s :=
  defaultStep_skip _ _ s h

theorem coreBatch_skip (s : Settings)
    (h : scontains s "storage.batch_upload_enabled" = true) : coreBatch s = s :=
  defaultStep_skip _ _ s h

theorem coreBrowserid_skip (pu : String) (s : Settings)
    (h : scontains s "browserid.backend" = true) : coreBrowserid pu s = s :=
  defaultStep_skip _ _ s h

theorem coreFxa_skip (b : String) (s : Settings)
    (h : scontains s "fxa.metrics_uid_secret_key" = true) : coreFxa b s = s :=
  defaultStep_skip _ _ s h

theorem token_key_ne (sfx lit : String) (h : lit.data.head? ≠ some 't') :
    ("tokenserver.secrets." ++ sfx) ≠ lit := by
  apply str_ne_of_data_head
  rw [token_append_head sfx]
  exact fun he => h he.symm

theorem hawk_key_ne (sfx lit : String) (h : lit.data.head? ≠ some 'h') :
    ("hawkauth.secrets." ++ sfx) ≠ lit := by
  apply str_ne_of_data_head
  rw [hawk_append_head sfx]
  exact fun he => h he.symm

/-- The hawkauth block, run with its guard absent, mirrors any present
`tokenserver.secrets.*` key to the renamed `hawkauth.secrets.*` key. -/
theorem hawkStep_mirror (s7 : Settings) (k : String) (v : Value)
    (hg : sget s7 "hawkauth.secrets.backend" = none)
    (hp : strStartsWith k "tokenserver.secrets." = true)
    (hk : sget s7 k = some v) :
    sget (hawkStep s7) ("hawkauth" ++ strDrop k 11) = some v := by
  unfold hawkStep
  rw [if_neg (by rw [scontains_eq_isSome, hg]; simp)]
  exact sget_hawkCopy_copied (skeys s7) s7 k v (mem_skeys_of_sget s7 k v hk) hp hk

theorem reqAfter_scheme (pu : String) (req : Request) :
    (reqAfter pu req).scheme = req.scheme := by
  unfold reqAfter
  split <;> rfl

theorem reqAfter_host (pu : String) (req : Request) :
    (reqAfter pu req).host = req.host := by
  unfold reqAfter
  split <;> rfl

theorem reqAfter_script_name (pu : String) (req : Request) :
    (reqAfter pu req).script_name =
      if req.script_name = "" then rstripSlash (urlparse pu).path
      else req.script_name := by
  unfold reqAfter
  split <;> simp_all

theorem reqAfter_sn_cases (pu : String) (req : Request) (hv : ValidRequest req) :
    (reqAfter pu req).script_name.data = [] ∨
    (reqAfter pu req).script_name.data.head? = some '/' ∨
    (reqAfter pu req).script_name = rstripSlash (urlparse pu).path := by
  unfold reqAfter
  split
  · exact Or.inr (Or.inr rfl)
  · next hsn =>
      rcases hv.2.2 with h | h
      · exact absurd (String.ext (show req.script_name.data = ("" : String).data
          from h)) hsn
      · exact Or.inr (Or.inl h)

/-- Under the web-serving contract, a host mismatch always makes the check
of the reconciler fire: the public URL cannot equal the application URL. -/
theorem reconcile_mismatch_cond (pu : String) (req : Request)
    (hv : ValidRequest req) (hne : req.host ≠ (urlparse pu).netloc) :
    pu ≠ applicationUrl (reqAfter pu req) := by
  have happ : applicationUrl (reqAfter pu req)
      = req.scheme ++ "://" ++ req.host ++ (reqAfter pu req).script_name := by
    unfold applicationUrl
    rw [reqAfter_scheme, reqAfter_host]
  rw [happ]
  exact Ne.symm (appUrl_ne_public req.scheme req.host _ pu hv.1 hv.2.1 hne
    (reqAfter_sn_cases pu req hv))

/-- C1 (counterexample): at a concrete request whose host differs from the
configured public URL, with the override disabled and an empty script
name, the reconciler raises but does NOT leave every request field
unchanged: the script path prefix has been rewritten from the empty string
to the path of the public URL before the check fired. -/
theorem C1_counterexample :
    (reconcile "https://example.com/sync" false
      { scheme := "https", host := "evil.example.com",
        script_name := "" }).request.script_name = "/sync" ∧
    (reconcile "https://example.com/sync" false
      { scheme := "https", host := "evil.example.com",
        script_name := "" }).raised.isSome = true := by
  exact ⟨rfl, rfl⟩

/-- C1 (amended): for every valid request whose host differs from the
network location of the configured public URL, with the force-override
setting disabled, the reconciler raises an error with HTTP status 500
whose JSON body carries the descriptive mismatch message, logs that same
message at error level, leaves the scheme and host of the request
unchanged, and leaves the script path prefix unchanged unless it was
empty, in which case it has already been set to the trailing-slash-
stripped path of the public URL before the check fired. -/
theorem C1_mismatch_rejected (pu : String) (req : Request)
    (hv : ValidRequest req) (hne : req.host ≠ (urlparse pu).netloc) :
    (reconcile pu false req).request.scheme = req.scheme ∧
    (reconcile pu false req).request.host = req.host ∧
    (reconcile pu false req).request.script_name =
      (if req.script_name = "" then rstripSlash (urlparse pu).path
       else req.script_name) ∧
    (reconcile pu false req).raised =
      some ⟨500, [mismatchMsg pu
        (applicationUrl (reconcile pu false req).request)]⟩ ∧
    (reconcile pu false req).logged = [mismatchMsg pu
      (applicationUrl (reconcile pu false req).request)] := by
  have hrun : reconcile pu false req =
      { request := reqAfter pu req,
        raised := some ⟨500, [mismatchMsg pu (applicationUrl (reqAfter pu req))]⟩,
        logged := [mismatchMsg pu (applicationUrl (reqAfter pu req))] } := by
    simp only [reconcile]
    rw [if_pos (reconcile_mismatch_cond pu req hv hne)]
    simp
  rw [hrun]
  exact ⟨reqAfter_scheme pu req, reqAfter_host pu req,
    reqAfter_script_name pu req, rfl, rfl⟩

/-- C1 (amended, witness): the amended statement evaluated at a concrete
mismatching request. -/
theorem C1_mismatch_rejected_witness :
    ValidRequest ⟨"https", "evil.example.com", "/app"⟩ ∧
    ("evil.example.com" : String) ≠ (urlparse "https://example.com/sync").netloc ∧
    ((reconcile "https://example.com/sync" false
        ⟨"https", "evil.example.com", "/app"⟩).request.scheme = "https" ∧
      (reconcile "https://example.com/sync" false
        ⟨"https", "evil.example.com", "/app"⟩).request.host = "evil.example.com" ∧
      (reconcile "https://example.com/sync" false
        ⟨"https", "evil.example.com", "/app"⟩).request.script_name =
        (if ("/app" : String) = "" then
          rstripSlash (urlparse "https://example.com/sync").path
         else "/app") ∧
      (reconcile "https://example.com/sync" false
        ⟨"https", "evil.example.com", "/app"⟩).raised =
        some ⟨500, [mismatchMsg "https://example.com/sync"
          (applicationUrl (reconcile "https://example.com/sync" false
            ⟨"https", "evil.example.com", "/app"⟩).request)]⟩ ∧
      (reconcile "https://example.com/sync" false
        ⟨"https", "evil.example.com", "/app"⟩).logged =
        [mismatchMsg "https://example.com/sync"
          (applicationUrl (reconcile "https://example.com/sync" false
            ⟨"https", "evil.example.com", "/app"⟩).request)]) :=
  ⟨by decide, by decide,
    C1_mismatch_rejected "https://example.com/sync"
      ⟨"https", "evil.example.com", "/app"⟩ (by decide) (by decide)⟩

/-- C5: for every valid request whose host differs from the network
location of the configured public URL, with the force-override setting
enabled, the reconciler overwrites the scheme, host and script path
prefix of the request with the scheme, network location and
trailing-slash-stripped path of the configured public URL, raises no
error and logs nothing, letting the request through. -/
theorem C5_mismatch_overridden (pu : String) (req : Request)
    (hv : ValidRequest req) (hne : req.host ≠ (urlparse pu).netloc) :
    reconcile pu true req =
      { request := { scheme := (urlparse pu).scheme,
                     host := (urlparse pu).netloc,
                     script_name := rstripSlash (urlparse pu).path },
        raised := none, logged := [] } := by
  simp only [reconcile]
  rw [if_pos (reconcile_mismatch_cond pu req hv hne)]
  simp

/-- C5 (witness): the statement evaluated at a concrete mismatching
request with the override enabled. -/
theorem C5_mismatch_overridden_witness :
    ValidRequest ⟨"http", "internal.lan", ""⟩ ∧
    ("internal.lan" : String) ≠ (urlparse "https://example.com/sync").netloc ∧
    reconcile "https://example.com/sync" true ⟨"http", "internal.lan", ""⟩ =
      { request := ⟨(urlparse "https://example.com/sync").scheme,
          (urlparse "https://example.com/sync").netloc,
          rstripSlash (urlparse "https://example.com/sync").path⟩,
        raised := none, logged := [] } :=
  ⟨by decide, by decide,
    C5_mismatch_overridden "https://example.com/sync"
      ⟨"http", "internal.lan", ""⟩ (by decide) (by decide)⟩

/-- C6: every valid request whose application URL is exactly the
configured public URL passes the reconciler unmodified, with no error
raised and nothing logged, whatever the override setting. -/
theorem C6_exact_match_passes (pu : String) (force : Bool) (req : Request)
    (hv : ValidRequest req) (heq : applicationUrl req = pu) :
    reconcile pu force req = { request := req, raised := none, logged := [] } := by
  have hreq : reqAfter pu req = req := by
    unfold reqAfter
    split
    · next hsn =>
        have hpu : urlparse pu =
            ⟨⟨req.scheme.data.map Char.toLower⟩, req.host, req.script_name⟩ := by
          rw [← heq]
          exact urlparse_app _ _ _ hv.1 hv.2.1 (Or.inl (by rw [hsn]))
        rw [hpu]
        show { req with script_name := rstripSlash req.script_name } = req
        rw [hsn]
        show { req with script_name := "" } = req
        rw [← hsn]
    · rfl
  simp only [reconcile]
  rw [hreq, heq]
  simp

/-- C6 (witness): the statement evaluated at a concrete request whose
application URL equals the public URL. -/
theorem C6_exact_match_passes_witness :
    ValidRequest ⟨"https", "example.com", "/sync"⟩ ∧
    applicationUrl ⟨"https", "example.com", "/sync"⟩ =
      "https://example.com/sync" ∧
    reconcile "https://example.com/sync" false
      ⟨"https", "example.com", "/sync"⟩ =
      { request := ⟨"https", "example.com", "/sync"⟩,
        raised := none, logged := [] } :=
  ⟨by decide, by decide,
    C6_exact_match_passes "https://example.com/sync" false
      ⟨"https", "example.com", "/sync"⟩ (by decide) (by decide)⟩

/-- C7: for every request with an empty script path prefix, the reconciler
behaves exactly as if the script path prefix had been the trailing-slash-
stripped path of the configured public URL from the start (so the value is
adopted before the URL-equality comparison), and in every outcome the
final script path prefix is that adopted value. -/
theorem C7_empty_script_name (pu : String) (force : Bool) (req : Request)
    (hsn : req.script_name = "") :
    reconcile pu force req = reconcile pu force
      { req with script_name := rstripSlash (urlparse pu).path } ∧
    (reconcile pu force req).request.script_name =
      rstripSlash (urlparse pu).path := by
  have hre : reqAfter pu req = reqAfter pu
      { req with script_name := rstripSlash (urlparse pu).path } := by
    unfold reqAfter
    rw [if_pos hsn]
    split <;> rfl
  constructor
  · simp only [reconcile]
    rw [hre]
  · simp only [reconcile]
    split
    · split
      · show (reqAfter pu req).script_name = _
        simp [reqAfter, hsn]
      · rfl
    · show (reqAfter pu req).script_name = _
      simp [reqAfter, hsn]

/-- C7 (witness): the statement evaluated at a concrete request with an
empty script name. -/
theorem C7_empty_script_name_witness :
    (⟨"https", "example.com", ""⟩ : Request).script_name = "" ∧
    (reconcile "https://example.com/sync" false ⟨"https", "example.com", ""⟩ =
      reconcile "https://example.com/sync" false
        ⟨"https", "example.com",
          rstripSlash (urlparse "https://example.com/sync").path⟩ ∧
    (reconcile "https://example.com/sync" false
      ⟨"https", "example.com", ""⟩).request.script_name =
      rstripSlash (urlparse "https://example.com/sync").path) :=
  ⟨rfl, C7_empty_script_name "https://example.com/sync" false
    ⟨"https", "example.com", ""⟩ rfl⟩

/-- C4 (counterexample): a mapping in which `syncserver.public_url` is
present, but with a boolean value (as the configuration loader can
produce), still makes the defaulter fail, so the defaulter does not fail
ONLY when the key is absent. -/
theorem C4_counterexample :
    includeme "a" "b" "c" [("syncserver.public_url", vBool true)]
        = Except.error ConfErr.publicUrlNotString ∧
    sget [("syncserver.public_url", vBool true)] "syncserver.public_url"
        = some (vBool true) :=
  ⟨rfl, rfl⟩

/-- C4 (amended): for every settings mapping, initialization fails with
the clear missing-URL configuration error (`RuntimeError`, before any
request handling can be installed) if and only if `syncserver.public_url`
is absent; a present non-string value also fails, but with a type error
instead. -/
theorem C4_missing_url_fatal (a b c : String) (s : Settings) :
    includeme a b c s = Except.error ConfErr.missingPublicUrl ↔
      sget s "syncserver.public_url" = none := by
  constructor
  · intro h
    rcases hv : sget s "syncserver.public_url" with _ | v
    · rfl
    · exfalso
      unfold includeme at h
      rw [hv] at h
      cases v <;> simp at h
  · intro h
    unfold includeme
    rw [h]

/-- C4 (amended, witness): the missing-URL error fires on a mapping
without the key, and does not fire on a mapping with a string value. -/
theorem C4_missing_url_fatal_witness :
    includeme "a" "b" "c" [("syncserver.sqluri", vStr "x")]
        = Except.error ConfErr.missingPublicUrl ∧
    ¬includeme "a" "b" "c" [("syncserver.public_url", vStr "https://e.com")]
        = Except.error ConfErr.missingPublicUrl :=
  ⟨(C4_missing_url_fatal "a" "b" "c" [("syncserver.sqluri", vStr "x")]).mpr rfl,
    fun h =>
      Option.noConfusion ((C4_missing_url_fatal "a" "b" "c"
        [("syncserver.public_url", vStr "https://e.com")]).mp h)⟩

/-- C8: after a successful run of the defaulter the `config` key is
absent from the settings, whether or not the caller supplied it. -/
theorem C8_config_removed (a b c : String) (s s' : Settings)
    (hrun : includeme a b c s = Except.ok s') : sget s' "config" = none := by
  obtain ⟨raw, _, rfl⟩ := includeme_ok_inv a b c s s' hrun
  exact defaulterCore_config a b c raw s

/-- C8 (witness): the statement evaluated on a mapping that supplies a
`config` entry. -/
theorem C8_config_removed_witness :
    includeme "aa" "bb" "/srv"
        [("syncserver.public_url", vStr "https://example.com"),
         ("config", vStr "x")]
      = Except.ok (defaulterCore "aa" "bb" "/srv" "https://example.com"
          [("syncserver.public_url", vStr "https://example.com"),
           ("config", vStr "x")]) ∧
    sget (defaulterCore "aa" "bb" "/srv" "https://example.com"
        [("syncserver.public_url", vStr "https://example.com"),
         ("config", vStr "x")]) "config" = none :=
  ⟨rfl, C8_config_removed "aa" "bb" "/srv"
    [("syncserver.public_url", vStr "https://example.com"),
     ("config", vStr "x")]
    (defaulterCore "aa" "bb" "/srv" "https://example.com"
      [("syncserver.public_url", vStr "https://example.com"),
       ("config", vStr "x")]) rfl⟩

/-- C9: when the caller did not supply `hawkauth.secrets.backend`, every
`tokenserver.secrets.<suffix>` entry of the defaulted settings (including
the ones the defaulter itself inserted) is mirrored as
`hawkauth.secrets.<suffix>` with an equal value. -/
theorem C9_hawk_mirror (a b c : String) (s s' : Settings) (sfx : String)
    (v : Value) (hhb : sget s "hawkauth.secrets.backend" = none)
    (hrun : includeme a b c s = Except.ok s')
    (hts : sget s' ("tokenserver.secrets." ++ sfx) = some v) :
    sget s' ("hawkauth.secrets." ++ sfx) = some v := by
  obtain ⟨raw, hraw, rfl⟩ := includeme_ok_inv a b c s s' hrun
  simp only [defaulterCore] at hts ⊢
  rw [sget_coreFxa_ne _ _ ("tokenserver.secrets." ++ sfx)
        (token_key_ne sfx _ (by decide)),
      sget_coreBrowserid_ne _ _ ("tokenserver.secrets." ++ sfx)
        (token_key_ne sfx _ (by decide)) (token_key_ne sfx _ (by decide)),
      sget_coreBatch_ne _ ("tokenserver.secrets." ++ sfx)
        (token_key_ne sfx _ (by decide)),
      sget_coreStorage_ne _ _ ("tokenserver.secrets." ++ sfx)
        (token_key_ne sfx _ (by decide)) (token_key_ne sfx _ (by decide))
        (token_key_ne sfx _ (by decide)),
      sget_hawkStep_frame _ ("tokenserver.secrets." ++ sfx)
        (not_hawk_prefixed _ 't' (token_append_head sfx) (by decide))] at hts
  rw [sget_coreFxa_ne _ _ ("hawkauth.secrets." ++ sfx)
        (hawk_key_ne sfx _ (by decide)),
      sget_coreBrowserid_ne _ _ ("hawkauth.secrets." ++ sfx)
        (hawk_key_ne sfx _ (by decide)) (hawk_key_ne sfx _ (by decide)),
      sget_coreBatch_ne _ ("hawkauth.secrets." ++ sfx)
        (hawk_key_ne sfx _ (by decide)),
      sget_coreStorage_ne _ _ ("hawkauth.secrets." ++ sfx)
        (hawk_key_ne sfx _ (by decide)) (hawk_key_ne sfx _ (by decide))
        (hawk_key_ne sfx _ (by decide))]
  rw [← hawk_rename_append sfx]
  apply hawkStep_mirror _ _ v _ (token_prefix_append sfx) hts
  rw [sget_allowStep_ne _ "hawkauth.secrets.backend" (by decide),
      sget_coreSecrets_ne _ _ "hawkauth.secrets.backend" (by decide)
        (by decide),
      sget_coreApps_ne _ "hawkauth.secrets.backend" (by decide),
      sget_coreMonkey_ne _ "hawkauth.secrets.backend" (by decide),
      sget_coreTokens_ne _ _ _ "hawkauth.secrets.backend" (by decide)
        (by decide) (by decide) (by decide),
      sget_spop_ne _ _ _ (by decide),
      sget_sset_ne _ _ _ _ (by decide)]
  exact hhb

/-- C9 (witness): the statement evaluated on a mapping with a custom
tokenserver secrets backend entry and no hawkauth backend. -/
theorem C9_hawk_mirror_witness :
    sget [("syncserver.public_url", vStr "https://example.com"),
          ("tokenserver.secrets.backend", vStr "B"),
          ("tokenserver.secrets.mykey", vStr "V")]
        "hawkauth.secrets.backend" = none ∧
    includeme "aa" "bb" "/srv"
        [("syncserver.public_url", vStr "https://example.com"),
         ("tokenserver.secrets.backend", vStr "B"),
         ("tokenserver.secrets.mykey", vStr "V")]
      = Except.ok (defaulterCore "aa" "bb" "/srv" "https://example.com"
          [("syncserver.public_url", vStr "https://example.com"),
           ("tokenserver.secrets.backend", vStr "B"),
           ("tokenserver.secrets.mykey", vStr "V")]) ∧
    sget (defaulterCore "aa" "bb" "/srv" "https://example.com"
        [("syncserver.public_url", vStr "https://example.com"),
         ("tokenserver.secrets.backend", vStr "B"),
         ("tokenserver.secrets.mykey", vStr "V")])
      ("tokenserver.secrets." ++ "mykey") = some (vStr "V") ∧
    sget (defaulterCore "aa" "bb" "/srv" "https://example.com"
        [("syncserver.public_url", vStr "https://example.com"),
         ("tokenserver.secrets.backend", vStr "B"),
         ("tokenserver.secrets.mykey", vStr "V")])
      ("hawkauth.secrets." ++ "mykey") = some (vStr "V") :=
  ⟨rfl, rfl, rfl,
    C9_hawk_mirror "aa" "bb" "/srv"
      [("syncserver.public_url", vStr "https://example.com"),
       ("tokenserver.secrets.backend", vStr "B"),
       ("tokenserver.secrets.mykey", vStr "V")]
      (defaulterCore "aa" "bb" "/srv" "https://example.com"
        [("syncserver.public_url", vStr "https://example.com"),
         ("tokenserver.secrets.backend", vStr "B"),
         ("tokenserver.secrets.mykey", vStr "V")])
      "mykey" (vStr "V") rfl rfl rfl⟩

/-- C10: when the caller did not supply `browserid.backend`, the
defaulter selects the remote verifier and sets `browserid.audiences` to
the configured public URL with its path removed, that is scheme and
network location only (stated for public URLs with a nonempty scheme and
network location). -/
theorem C10_browserid_defaults (a b c : String) (s s' : Settings)
    (raw : String) (hrun : includeme a b c s = Except.ok s')
    (hraw : sget s "syncserver.public_url" = some (vStr raw))
    (hb : sget s "browserid.backend" = none)
    (hsch : (urlparse (rstripSlash raw)).scheme ≠ "")
    (hnl : (urlparse (rstripSlash raw)).netloc ≠ "") :
    sget s' "browserid.backend"
        = some (vStr "tokenserver.verifiers.RemoteVerifier") ∧
    sget s' "browserid.audiences"
        = some (vStr ((urlparse (rstripSlash raw)).scheme ++ "://" ++
            (urlparse (rstripSlash raw)).netloc)) := by
  obtain ⟨raw0, hraw0, rfl⟩ := includeme_ok_inv a b c s s' hrun
  rw [hraw0] at hraw
  injection hraw with hraw
  injection hraw with hraw
  subst hraw
  constructor
  · simp only [defaulterCore]
    rw [sget_coreFxa_ne _ _ "browserid.backend" (by decide)]
    apply coreBrowserid_backend_out
    rw [sget_coreBatch_ne _ "browserid.backend" (by decide),
        sget_coreStorage_ne _ _ "browserid.backend" (by decide) (by decide)
          (by decide),
        sget_hawkStep_frame _ "browserid.backend" (by decide),
        sget_allowStep_ne _ "browserid.backend" (by decide),
        sget_coreSecrets_ne _ _ "browserid.backend" (by decide) (by decide),
        sget_coreApps_ne _ "browserid.backend" (by decide),
        sget_coreMonkey_ne _ "browserid.backend" (by decide),
        sget_coreTokens_ne _ _ _ "browserid.backend" (by decide) (by decide)
          (by decide) (by decide),
        sget_spop_ne _ _ _ (by decide),
        sget_sset_ne _ _ _ _ (by decide)]
    exact hb
  · simp only [defaulterCore]
    rw [sget_coreFxa_ne _ _ "browserid.audiences" (by decide)]
    rw [← urlunparse_no_path (urlparse (rstripSlash raw0)) hsch hnl]
    apply coreBrowserid_audiences_out
    rw [sget_coreBatch_ne _ "browserid.backend" (by decide),
        sget_coreStorage_ne _ _ "browserid.backend" (by decide) (by decide)
          (by decide),
        sget_hawkStep_frame _ "browserid.backend" (by decide),
        sget_allowStep_ne _ "browserid.backend" (by decide),
        sget_coreSecrets_ne _ _ "browserid.backend" (by decide) (by decide),
        sget_coreApps_ne _ "browserid.backend" (by decide),
        sget_coreMonkey_ne _ "browserid.backend" (by decide),
        sget_coreTokens_ne _ _ _ "browserid.backend" (by decide) (by decide)
          (by decide) (by decide),
        sget_spop_ne _ _ _ (by decide),
        sget_sset_ne _ _ _ _ (by decide)]
    exact hb

/-- C10 (witness): the statement evaluated on a mapping whose public URL
has a path. -/
theorem C10_browserid_defaults_witness :
    sget [("syncserver.public_url", vStr "https://example.com/sync/")]
        "browserid.backend" = none ∧
    (urlparse (rstripSlash "https://example.com/sync/")).scheme ≠ "" ∧
    (urlparse (rstripSlash "https://example.com/sync/")).netloc ≠ "" ∧
    sget (defaulterCore "aa" "bb" "/srv" "https://example.com/sync/"
        [("syncserver.public_url", vStr "https://example.com/sync/")])
        "browserid.backend"
      = some (vStr "tokenserver.verifiers.RemoteVerifier") ∧
    sget (defaulterCore "aa" "bb" "/srv" "https://example.com/sync/"
        [("syncserver.public_url", vStr "https://example.com/sync/")])
        "browserid.audiences"
      = some (vStr ((urlparse (rstripSlash "https://example.com/sync/")).scheme
          ++ "://" ++
          (urlparse (rstripSlash "https://example.com/sync/")).netloc)) := by
  refine ⟨rfl, by decide, by decide, ?_, ?_⟩
  · exact (C10_browserid_defaults "aa" "bb" "/srv"
      [("syncserver.public_url", vStr "https://example.com/sync/")]
      (defaulterCore "aa" "bb" "/srv" "https://example.com/sync/"
        [("syncserver.public_url", vStr "https://example.com/sync/")])
      "https://example.com/sync/" rfl rfl rfl (by decide) (by decide)).1
  · exact (C10_browserid_defaults "aa" "bb" "/srv"
      [("syncserver.public_url", vStr "https://example.com/sync/")]
      (defaulterCore "aa" "bb" "/srv" "https://example.com/sync/"
        [("syncserver.public_url", vStr "https://example.com/sync/")])
      "https://example.com/sync/" rfl rfl rfl (by decide) (by decide)).2

/-- C2 (counterexample): the `syncserver.public_url` entry itself, though
present before the defaulter runs, is rewritten to its trailing-slash-
stripped form, so not every present key keeps its value. -/
theorem C2_counterexample :
    (includeme "aa" "bb" "/srv"
        [("syncserver.public_url", vStr "https://example.com/")]).map
      (fun t => sget t "syncserver.public_url")
      = Except.ok (some (vStr "https://example.com")) ∧
    sget [("syncserver.public_url", vStr "https://example.com/")]
        "syncserver.public_url" = some (vStr "https://example.com/") ∧
    ("https://example.com" : String) ≠ "https://example.com/" :=
  ⟨rfl, rfl, by decide⟩

/-- C2 (amended): for every settings mapping and key present before the
defaulter runs, the value is unchanged provided the key is not `config`
(which is removed), not `syncserver.public_url` (which is normalised to
its trailing-slash-stripped form), and, when the key belongs to a
defaulting block, the guard key of that block was also supplied by the
caller.  Without the guard the block may overwrite its dependent keys
(`tokenserver.sqluri`, `tokenserver.node_url`, `endpoints.sync-1.5`,
`tokenserver.secrets.secrets`, `storage.sqluri`, `storage.create_tables`,
`browserid.audiences` and the mirrored `hawkauth.secrets.*` keys). -/
theorem C2_preservation (a b c : String) (s s' : Settings)
    (hrun : includeme a b c s = Except.ok s') :
    (∀ k v, sget s k = some v → k ≠ "config" → k ≠ "syncserver.public_url" →
      (∀ g, governedGuard k = some g → scontains s g = true) →
      sget s' k = some v) ∧
    (∀ raw, sget s "syncserver.public_url" = some (vStr raw) →
      sget s' "syncserver.public_url" = some (vStr (rstripSlash raw))) ∧
    sget s' "config" = none := by
  obtain ⟨raw0, hraw0, rfl⟩ := includeme_ok_inv a b c s s' hrun
  refine ⟨?_, ?_, defaulterCore_config a b c raw0 s⟩
  · intro k v hk hcfg hpu hg
    simp only [defaulterCore]
    apply sget_defaultStep_preserved
    · apply sget_defaultStep_preserved
      · apply sget_defaultStep_preserved
        · apply sget_defaultStep_preserved
          · apply sget_hawkStep_preserved
            · apply sget_allowStep_preserved
              apply sget_defaultStep_preserved
              · apply sget_defaultStep_preserved
                · apply sget_defaultStep_preserved
                  · apply sget_defaultStep_preserved
                    · rw [sget_spop_ne _ _ _ (Ne.symm hcfg),
                          sget_sset_ne _ _ _ _ (Ne.symm hpu)]
                      exact hk
                    · intro hm
                      simp at hm
                      rcases hm with hm | hm | hm | hm
                      · exact Or.inl hm
                      all_goals
                        subst hm
                        right
                        rw [scontains_eq_isSome, sget_spop_ne _ _ _ (by decide),
                          sget_sset_ne _ _ _ _ (by decide), ← scontains_eq_isSome]
                        exact hg "tokenserver.backend" (by decide)
                  · intro hm
                    simp at hm
                    exact Or.inl hm
                · intro hm
                  simp at hm
                  exact Or.inl hm
              · intro hm
                simp at hm
                rcases hm with hm | hm
                · exact Or.inl hm
                · subst hm
                  right
                  apply scontains_defaultStep_mono
                  apply scontains_defaultStep_mono
                  apply scontains_defaultStep_mono
                  rw [scontains_eq_isSome, sget_spop_ne _ _ _ (by decide),
                    sget_sset_ne _ _ _ _ (by decide), ← scontains_eq_isSome]
                  exact hg "tokenserver.secrets.backend" (by decide)
            · intro hp
              have hgb := hg "hawkauth.secrets.backend"
                (by unfold governedGuard; rw [if_pos hp])
              apply scontains_allowStep_mono
              apply scontains_defaultStep_mono
              apply scontains_defaultStep_mono
              apply scontains_defaultStep_mono
              apply scontains_defaultStep_mono
              rw [scontains_eq_isSome, sget_spop_ne _ _ _ (by decide),
                sget_sset_ne _ _ _ _ (by decide), ← scontains_eq_isSome]
              exact hgb
          · intro hm
            simp at hm
            rcases hm with hm | hm | hm
            · exact Or.inl hm
            all_goals
              subst hm
              right
              apply scontains_hawkStep_mono
              apply scontains_allowStep_mono
              apply scontains_defaultStep_mono
              apply scontains_defaultStep_mono
              apply scontains_defaultStep_mono
              apply scontains_defaultStep_mono
              rw [scontains_eq_isSome, sget_spop_ne _ _ _ (by decide),
                sget_sset_ne _ _ _ _ (by decide), ← scontains_eq_isSome]
              exact hg "storage.backend" (by decide)
        · intro hm
          simp at hm
          exact Or.inl hm
      · intro hm
        simp at hm
        rcases hm with hm | hm
        · exact Or.inl hm
        · subst hm
          right
          apply scontains_defaultStep_mono
          apply scontains_defaultStep_mono
          apply scontains_hawkStep_mono
          apply scontains_allowStep_mono
          apply scontains_defaultStep_mono
          apply scontains_defaultStep_mono
          apply scontains_defaultStep_mono
          apply scontains_defaultStep_mono
          rw [scontains_eq_isSome, sget_spop_ne _ _ _ (by decide),
            sget_sset_ne _ _ _ _ (by decide), ← scontains_eq_isSome]
          exact hg "browserid.backend" (by decide)
    · intro hm
      simp at hm
      exact Or.inl hm
  · intro raw hraw
    rw [hraw0] at hraw
    simp only [Option.some.injEq, Value.vStr.injEq] at hraw
    subst hraw
    exact defaulterCore_publicUrl a b c raw0 s

/-- C2 (amended, witness): a supplied dependent key with its guard also
supplied keeps its value; the public URL is normalised; `config` is
removed. -/
theorem C2_preservation_witness :
    includeme "aa" "bb" "/srv"
        [("syncserver.public_url", vStr "https://example.com/"),
         ("tokenserver.backend", vStr "TB"),
         ("tokenserver.sqluri", vStr "SQ")]
      = Except.ok (defaulterCore "aa" "bb" "/srv" "https://example.com/"
          [("syncserver.public_url", vStr "https://example.com/"),
           ("tokenserver.backend", vStr "TB"),
           ("tokenserver.sqluri", vStr "SQ")]) ∧
    sget (defaulterCore "aa" "bb" "/srv" "https://example.com/"
        [("syncserver.public_url", vStr "https://example.com/"),
         ("tokenserver.backend", vStr "TB"),
         ("tokenserver.sqluri", vStr "SQ")]) "tokenserver.sqluri"
      = some (vStr "SQ") ∧
    sget (defaulterCore "aa" "bb" "/srv" "https://example.com/"
        [("syncserver.public_url", vStr "https://example.com/"),
         ("tokenserver.backend", vStr "TB"),
         ("tokenserver.sqluri", vStr "SQ")]) "syncserver.public_url"
      = some (vStr (rstripSlash "https://example.com/")) ∧
    sget (defaulterCore "aa" "bb" "/srv" "https://example.com/"
        [("syncserver.public_url", vStr "https://example.com/"),
         ("tokenserver.backend", vStr "TB"),
         ("tokenserver.sqluri", vStr "SQ")]) "config" = none := by
  have H := C2_preservation "aa" "bb" "/srv"
    [("syncserver.public_url", vStr "https://example.com/"),
     ("tokenserver.backend", vStr "TB"),
     ("tokenserver.sqluri", vStr "SQ")]
    (defaulterCore "aa" "bb" "/srv" "https://example.com/"
      [("syncserver.public_url", vStr "https://example.com/"),
       ("tokenserver.backend", vStr "TB"),
       ("tokenserver.sqluri", vStr "SQ")]) rfl
  refine ⟨rfl, ?_, H.2.1 "https://example.com/" rfl, H.2.2⟩
  refine H.1 "tokenserver.sqluri" (vStr "SQ") rfl (by decide) (by decide) ?_
  intro g hgg
  rw [show governedGuard "tokenserver.sqluri" = some "tokenserver.backend"
    from by decide] at hgg
  injection hgg with hgg
  subst hgg
  rfl

/-- C3: the defaulter is idempotent: running `includeme` on the result of
a successful run changes nothing (for an unsuccessful run both sides are
the same error), so defaulting twice yields the same settings mapping as
defaulting once. -/
theorem C3_idempotent (a b c : String) (s : Settings) :
    (includeme a b c s).bind (includeme a b c) = includeme a b c s := by
  rcases hv : sget s "syncserver.public_url" with _ | v
  · unfold includeme
    rw [hv]
    rfl
  · cases v with
    | vBool bb =>
        unfold includeme
        rw [hv]
        rfl
    | vList l =>
        unfold includeme
        rw [hv]
        rfl
    | vStr raw =>
        have hrun : includeme a b c s
            = Except.ok (defaulterCore a b c raw s) := by
          unfold includeme
          rw [hv]
        rw [hrun]
        have f1 := defaulterCore_publicUrl a b c raw s
        have f2 := defaulterCore_config a b c raw s
        have g1 := defaulterCore_guard_tokens a b c raw s
        have g2 := defaulterCore_guard_monkey a b c raw s
        have g3 := defaulterCore_guard_apps a b c raw s
        have g4 := defaulterCore_guard_secrets a b c raw s
        have g5 := defaulterCore_guard_hawk a b c raw s
        have g6 := defaulterCore_guard_storage a b c raw s
        have g7 := defaulterCore_guard_batch a b c raw s
        have g8 := defaulterCore_guard_browserid a b c raw s
        have g9 := defaulterCore_guard_fxa a b c raw s
        have fsanu := defaulterCore_sanu a b c raw s
        have fallow : scontains (defaulterCore a b c raw s)
              "tokenserver.allow_new_users" = true ∨
            sget (defaulterCore a b c raw s) "syncserver.allow_new_users"
              = none := by
          rcases hsa : sget s "syncserver.allow_new_users" with _ | w
          · right
            rw [fsanu, hsa]
          · left
            exact defaulterCore_allow a b c raw s w hsa
        generalize hD : defaulterCore a b c raw s = D
          at f1 f2 g1 g2 g3 g4 g5 g6 g7 g8 g9 fallow ⊢
        show includeme a b c D = Except.ok D
        have hcore : defaulterCore a b c (rstripSlash raw) D = D := by
          simp only [defaulterCore]
          rw [rstripSlash_idem raw]
          rw [sset_same D _ _ f1]
          rw [spop_absent D _ f2]
          rw [coreTokens_skip _ _ D g1]
          rw [coreMonkey_skip D g2]
          rw [coreApps_skip D g3]
          rw [coreSecrets_skip _ D g4]
          rw [allowStep_id D fallow]
          rw [hawkStep_id D g5]
          rw [coreStorage_skip _ D g6]
          rw [coreBatch_skip D g7]
          rw [coreBrowserid_skip _ D g8]
          rw [coreFxa_skip _ D g9]
        unfold includeme
        rw [f1]
        show Except.ok (defaulterCore a b c (rstripSlash raw) D) = Except.ok D
        rw [hcore]

end Syncserver
